import Mathlib

/-!
Verification of the resource allocation manager (`src/allocation_manager.py`).

The Python source is shallowly embedded: the mutable `AllocationManager`
object becomes an explicit state record threaded through pure functions,
Python `dict`s (insertion-ordered, first-occurrence lookup, in-place value
replacement) become association lists, Python `int` becomes `Int`,
Python `float` becomes `Rat` (exact arithmetic; every cpu quantity the
manager manipulates is an integral multiple of `worker_cpu = 1.0`, so no
rounding occurs at the spec's scales), `datetime.utcnow()` becomes an
explicit `now : Int` argument, and `uuid.uuid4()` becomes an explicit
`allocation_id` argument (reachability assumes the generated ids are fresh,
which models uuid uniqueness).
-/

namespace CortexRM

/-- Python dict lookup: first entry with the given key. -/
def lookupA {α : Type} (l : List (String × α)) (k : String) : Option α :=
  match l with
  | [] => none
  | (k', v) :: t => if k' = k then some v else lookupA t k

/-- Python dict assignment `d[k] = v`: replace the first entry with key `k`
in place, or append a new entry when the key is absent. -/
def dictSet {α : Type} (l : List (String × α)) (k : String) (v : α) :
    List (String × α) :=
  match l with
  | [] => [(k, v)]
  | (k', v') :: t => if k' = k then (k', v) :: t else (k', v') :: dictSet t k v

/-- `class AllocationState(str, Enum)` from the source. -/
inductive AllocationState : Type where
  | PENDING
  | ACTIVE
  | RELEASING
  | RELEASED
  | FAILED
deriving DecidableEq

/-- `class Priority(str, Enum)` from the source. -/
inductive Priority : Type where
  | LOW
  | NORMAL
  | HIGH
  | CRITICAL
deriving DecidableEq

/-- `Priority(priority)` with the source's `except ValueError` fallback to
`Priority.NORMAL`. -/
def parsePriority (s : String) : Priority :=
  if s = "low" then .LOW
  else if s = "normal" then .NORMAL
  else if s = "high" then .HIGH
  else if s = "critical" then .CRITICAL
  else .NORMAL

/-- `@dataclass WorkerSpec` from the source. -/
structure WorkerSpec : Type where
  worker_id : String
  worker_type : String
  cpu : ℚ
  memory : ℤ
  status : String
  endpoint : Option String
deriving DecidableEq

/-- `@dataclass MCPServerSpec` from the source. -/
structure MCPServerSpec : Type where
  server_name : String
  endpoint : Option String
  status : String
  port : Option ℕ
deriving DecidableEq

/-- `@dataclass ResourceAllocation` from the source.  `metadata` holds the
string-valued entries the manager itself writes. -/
structure ResourceAllocation : Type where
  allocation_id : String
  job_id : String
  state : AllocationState
  priority : Priority
  mcp_servers : List String
  workers_requested : Option ℤ
  mcp_server_specs : List MCPServerSpec
  workers_allocated : List WorkerSpec
  cpu_allocated : ℚ
  memory_allocated : ℤ
  created_at : ℤ
  activated_at : Option ℤ
  released_at : Option ℤ
  ttl_seconds : ℤ
  metadata : List (String × String)
deriving DecidableEq

/-- `ResourceAllocation.is_expired`: terminal states are never expired;
otherwise compare `now` with `(activated_at or created_at) + ttl_seconds`. -/
def ResourceAllocation.is_expired (a : ResourceAllocation) (now : ℤ) : Bool :=
  if a.state = .RELEASED ∨ a.state = .FAILED then false
  else decide (now > a.activated_at.getD a.created_at + a.ttl_seconds)

/-- `ResourceAllocation.age_seconds` (with explicit `now`). -/
def ResourceAllocation.age_seconds (a : ResourceAllocation) (now : ℤ) : ℤ :=
  now - a.created_at

/-- `@dataclass ClusterCapacity` from the source. -/
structure ClusterCapacity : Type where
  total_cpu : ℚ
  total_memory : ℤ
  total_workers : ℤ
  allocated_cpu : ℚ
  allocated_memory : ℤ
  allocated_workers : ℤ
  running_mcp_servers : List String
  active_allocations : ℤ
deriving DecidableEq

def ClusterCapacity.available_cpu (c : ClusterCapacity) : ℚ :=
  c.total_cpu - c.allocated_cpu

def ClusterCapacity.available_memory (c : ClusterCapacity) : ℤ :=
  c.total_memory - c.allocated_memory

def ClusterCapacity.available_workers (c : ClusterCapacity) : ℤ :=
  c.total_workers - c.allocated_workers

/-- The `AllocationManager` object's mutable state. -/
structure AllocationManager : Type where
  capacity : ClusterCapacity
  allocations : List (String × ResourceAllocation)
  mcp_server_registry : List (String × MCPServerSpec)
  worker_cpu : ℚ
  worker_memory : ℤ
  mcp_server_ports : List ℕ
  next_port_idx : ℕ
deriving DecidableEq

/-- `AllocationManager.__init__`. -/
def initManager (total_cpu : ℚ) (total_memory total_workers : ℤ) :
    AllocationManager where
  capacity :=
    { total_cpu := total_cpu
      total_memory := total_memory
      total_workers := total_workers
      allocated_cpu := 0
      allocated_memory := 0
      allocated_workers := 0
      running_mcp_servers := []
      active_allocations := 0 }
  allocations := []
  mcp_server_registry := []
  worker_cpu := 1
  worker_memory := 2048
  mcp_server_ports := (List.range 100).map (fun i => 9000 + i)
  next_port_idx := 0

/-- `_allocate_port`: take the pool entry at `next_port_idx` and advance the
index modulo the pool size. -/
def _allocate_port (m : AllocationManager) : ℕ × AllocationManager :=
  let port := m.mcp_server_ports.getD m.next_port_idx 0
  (port, { m with next_port_idx := (m.next_port_idx + 1) % m.mcp_server_ports.length })

/-- The `# Allocate new server` half of `_start_mcp_server`. -/
def _start_mcp_server_new (m : AllocationManager) (server_name : String) :
    MCPServerSpec × AllocationManager :=
  let (port, m1) := _allocate_port m
  let spec : MCPServerSpec :=
    { server_name := server_name
      endpoint := some ("http://localhost:" ++ toString port)
      status := "running"
      port := some port }
  let m2 := { m1 with mcp_server_registry := dictSet m1.mcp_server_registry server_name spec }
  let m3 :=
    if server_name ∈ m2.capacity.running_mcp_servers then m2
    else { m2 with capacity := { m2.capacity with
            running_mcp_servers := m2.capacity.running_mcp_servers ++ [server_name] } }
  (spec, m3)

/-- `_start_mcp_server`: reuse a registered running instance, else start one. -/
def _start_mcp_server (m : AllocationManager) (server_name : String) :
    MCPServerSpec × AllocationManager :=
  match lookupA m.mcp_server_registry server_name with
  | some spec =>
    if spec.status = "running" then (spec, m)
    else _start_mcp_server_new m server_name
  | none => _start_mcp_server_new m server_name

/-- Python format `{i:03d}`: decimal digits, zero-padded on the left to
width 3. -/
def fmt03 (i : ℕ) : String :=
  let s := Nat.repr i
  if s.length < 3 then String.mk (List.replicate (3 - s.length) '0') ++ s else s

/-- The worker id `f"worker-{job_id}-{i:03d}"` synthesized by
`_provision_workers`. -/
def workerIdStr (job_id : String) (i : ℕ) : String :=
  "worker-" ++ job_id ++ "-" ++ fmt03 i

/-- `_provision_workers`: synthesize `count` worker descriptors for a job. -/
def _provision_workers (m : AllocationManager) (count : ℤ) (job_id : String) :
    List WorkerSpec :=
  (List.range count.toNat).map (fun i =>
    { worker_id := workerIdStr job_id i
      worker_type := "cortex-worker"
      cpu := m.worker_cpu
      memory := m.worker_memory
      status := "active"
      endpoint := some ("http://localhost:" ++ toString (8000 + m.allocations.length * 10 + i)) })

/-- `_check_capacity`: pure admission check returning `(ok, reason)`. -/
def _check_capacity (m : AllocationManager) (workers_count : ℤ) :
    Bool × Option String :=
  if workers_count > m.capacity.available_workers then
    (false, some ("Insufficient workers: requested " ++ toString workers_count
      ++ ", available " ++ toString m.capacity.available_workers))
  else
    let cpu_needed : ℚ := workers_count * m.worker_cpu
    if cpu_needed > m.capacity.available_cpu then
      (false, some ("Insufficient CPU: needed " ++ toString cpu_needed
        ++ ", available " ++ toString m.capacity.available_cpu))
    else
      let memory_needed := workers_count * m.worker_memory
      if memory_needed > m.capacity.available_memory then
        (false, some ("Insufficient memory: needed " ++ toString memory_needed
          ++ "MB, available " ++ toString m.capacity.available_memory ++ "MB"))
      else (true, none)

/-- The fields of the dict returned by `request_resources`. -/
structure RequestResult : Type where
  allocation_id : String
  status : String
  error : Option String
  mcp_servers : List (String × Option String × String)
  workers_allocated : List (String × Option String × ℚ × ℤ)
  resources_cpu : ℚ
  resources_memory : ℤ
  resources_workers : ℕ
deriving DecidableEq

/-- The fields of the dict returned by `release_resources`. -/
structure ReleaseResult : Type where
  status : String
  error : Option String
  allocation_id : Option String
  workers_released : ℕ
  cpu_freed : ℚ
  memory_freed : ℤ
  released_at : Option ℤ
  duration_seconds : Option ℤ
deriving DecidableEq

/-- The `for server_name in mcp_servers: self._start_mcp_server(...)` loop. -/
def startServers (m : AllocationManager) (names : List String) :
    List MCPServerSpec × AllocationManager :=
  match names with
  | [] => ([], m)
  | n :: t =>
    let (spec, m1) := _start_mcp_server m n
    let (specs, m2) := startServers m1 t
    (spec :: specs, m2)

/-- Python truthiness of `workers and workers > 0` for `workers : Optional[int]`. -/
def wantsWorkers : Option ℤ → Bool
  | none => false
  | some w => decide (0 < w)

/-- `request_resources`.  `allocation_id` stands for the generated
`f"alloc-{uuid.uuid4().hex[:12]}"` and `now` for `datetime.utcnow()`. -/
def request_resources (m : AllocationManager) (allocation_id job_id : String)
    (mcp_servers : List String) (workers : Option ℤ) (priority : String)
    (ttl_seconds : ℤ) (metadata : List (String × String)) (now : ℤ) :
    AllocationManager × RequestResult :=
  let priority_enum := parsePriority priority
  let allocation : ResourceAllocation :=
    { allocation_id := allocation_id
      job_id := job_id
      state := .PENDING
      priority := priority_enum
      mcp_servers := mcp_servers
      workers_requested := workers
      mcp_server_specs := []
      workers_allocated := []
      cpu_allocated := 0
      memory_allocated := 0
      created_at := now
      activated_at := none
      released_at := none
      ttl_seconds := ttl_seconds
      metadata := metadata }
  match (if wantsWorkers workers then _check_capacity m (workers.getD 0) else (true, none)) with
  | (false, error_msg) =>
    let err := error_msg.getD ""
    let failed := { allocation with
      state := .FAILED
      metadata := dictSet allocation.metadata "error" err }
    ({ m with allocations := dictSet m.allocations allocation_id failed },
     { allocation_id := allocation_id
       status := "failed"
       error := error_msg
       mcp_servers := []
       workers_allocated := []
       resources_cpu := 0
       resources_memory := 0
       resources_workers := 0 })
  | (true, _) =>
    let (specs, m1) := startServers m mcp_servers
    let alloc1 := { allocation with mcp_server_specs := specs }
    let step2 :=
      if wantsWorkers workers then
        let w := workers.getD 0
        let worker_specs := _provision_workers m1 w job_id
        let a := { alloc1 with
          workers_allocated := worker_specs
          cpu_allocated := w * m1.worker_cpu
          memory_allocated := w * m1.worker_memory }
        (a, { m1 with capacity := { m1.capacity with
                allocated_workers := m1.capacity.allocated_workers + w
                allocated_cpu := m1.capacity.allocated_cpu + a.cpu_allocated
                allocated_memory := m1.capacity.allocated_memory + a.memory_allocated } })
      else (alloc1, m1)
    let alloc3 := { step2.1 with state := .ACTIVE, activated_at := some now }
    let m3 := { step2.2 with capacity := { step2.2.capacity with
                  active_allocations := step2.2.capacity.active_allocations + 1 } }
    ({ m3 with allocations := dictSet m3.allocations allocation_id alloc3 },
     { allocation_id := allocation_id
       status := "active"
       error := none
       mcp_servers := alloc3.mcp_server_specs.map (fun s => (s.server_name, s.endpoint, s.status))
       workers_allocated := alloc3.workers_allocated.map (fun w => (w.worker_id, w.endpoint, w.cpu, w.memory))
       resources_cpu := alloc3.cpu_allocated
       resources_memory := alloc3.memory_allocated
       resources_workers := alloc3.workers_allocated.length })

/-- `release_resources`.  `now` stands for `datetime.utcnow()`. -/
def release_resources (m : AllocationManager) (allocation_id : String)
    (now : ℤ) : AllocationManager × ReleaseResult :=
  match lookupA m.allocations allocation_id with
  | none =>
    (m, { status := "error"
          error := some ("Allocation " ++ allocation_id ++ " not found")
          allocation_id := none
          workers_released := 0
          cpu_freed := 0
          memory_freed := 0
          released_at := none
          duration_seconds := none })
  | some allocation =>
    if allocation.state = .RELEASED ∨ allocation.state = .RELEASING then
      (m, { status := "already_released"
            error := none
            allocation_id := some allocation_id
            workers_released := 0
            cpu_freed := 0
            memory_freed := 0
            released_at := allocation.released_at
            duration_seconds := none })
    else
      let a1 := { allocation with state := .RELEASING }
      let workers_released := a1.workers_allocated.length
      let cap1 :=
        if 0 < workers_released then
          { m.capacity with
            allocated_workers := m.capacity.allocated_workers - workers_released
            allocated_cpu := m.capacity.allocated_cpu - a1.cpu_allocated
            allocated_memory := m.capacity.allocated_memory - a1.memory_allocated }
        else m.capacity
      let a2 := { a1 with
        workers_allocated := a1.workers_allocated.map (fun w => { w with status := "destroying" })
        state := .RELEASED
        released_at := some now }
      let cap2 := { cap1 with active_allocations := cap1.active_allocations - 1 }
      ({ m with capacity := cap2, allocations := dictSet m.allocations allocation_id a2 },
       { status := "released"
         error := none
         allocation_id := some allocation_id
         workers_released := workers_released
         cpu_freed := a1.cpu_allocated
         memory_freed := a1.memory_allocated
         released_at := some now
         duration_seconds := some (now - allocation.created_at) })

/-- The loop body of `cleanup_expired_allocations`: iterate over the snapshot
of dict items, re-reading each record from the live map (Python mutates the
shared record objects in place). -/
def cleanupGo (now : ℤ) :
    AllocationManager → List (String × ResourceAllocation) →
    AllocationManager × List String
  | m, [] => (m, [])
  | m, (allocation_id, _) :: t =>
    match lookupA m.allocations allocation_id with
    | some allocation =>
      if allocation.is_expired now ∧ allocation.state = .ACTIVE then
        let m1 := (release_resources m allocation_id now).1
        let r := cleanupGo now m1 t
        (r.1, allocation_id :: r.2)
      else cleanupGo now m t
    | none => cleanupGo now m t

/-- `cleanup_expired_allocations`. -/
def cleanup_expired_allocations (m : AllocationManager) (now : ℤ) :
    AllocationManager × List String :=
  cleanupGo now m m.allocations

/-- The states reachable by any sequence of `request_resources`,
`release_resources` and `cleanup_expired_allocations` calls from a freshly
constructed manager (spec section 3: totals are nonnegative).  The generated
`allocation_id` of a request is fresh, modelling uuid4 uniqueness. -/
inductive Reachable : AllocationManager → Prop where
  | init (total_cpu : ℚ) (total_memory total_workers : ℤ) :
      0 ≤ total_cpu → 0 ≤ total_memory → 0 ≤ total_workers →
      Reachable (initManager total_cpu total_memory total_workers)
  | request {m : AllocationManager} (allocation_id job_id : String)
      (mcp_servers : List String) (workers : Option ℤ) (priority : String)
      (ttl_seconds : ℤ) (metadata : List (String × String)) (now : ℤ) :
      Reachable m → lookupA m.allocations allocation_id = none →
      Reachable (request_resources m allocation_id job_id mcp_servers workers
        priority ttl_seconds metadata now).1
  | release {m : AllocationManager} (allocation_id : String) (now : ℤ) :
      Reachable m →
      Reachable (release_resources m allocation_id now).1
  | cleanup {m : AllocationManager} (now : ℤ) :
      Reachable m →
      Reachable (cleanup_expired_allocations m now).1

/-! ### Decimal rendering

`Nat.repr` is fuel-based (`Nat.toDigitsCore`); `digitsAux` is the same
computation by well-founded recursion, used to reason about the strings the
manager synthesizes (worker ids, endpoints). -/

/-- Decimal digit list of `n`, most significant first. -/
def digitsAux (n : ℕ) : List Char :=
  if n < 10 then [Nat.digitChar n]
  else digitsAux (n / 10) ++ [Nat.digitChar (n % 10)]
decreasing_by exact Nat.div_lt_self (by omega) (by omega)

theorem digitsAux_lt {n : ℕ} (h : n < 10) :
    digitsAux n = [Nat.digitChar n] := by
  rw [digitsAux]
  exact if_pos h

theorem digitsAux_ge {n : ℕ} (h : ¬n < 10) :
    digitsAux n = digitsAux (n / 10) ++ [Nat.digitChar (n % 10)] := by
  conv_lhs => rw [digitsAux]
  exact if_neg h

theorem toDigitsCore_eq (fuel n : ℕ) (ds : List Char) (h : n < fuel) :
    Nat.toDigitsCore 10 fuel n ds = digitsAux n ++ ds := by
  induction fuel generalizing n ds with
  | zero => omega
  | succ f ih =>
    rw [Nat.toDigitsCore]
    by_cases h10 : n / 10 = 0
    · have hn10 : n < 10 := by omega
      rw [if_pos h10, digitsAux_lt hn10, Nat.mod_eq_of_lt hn10]
      simp
    · have hge : ¬n < 10 := by omega
      have hlt : n / 10 < f := by
        have := Nat.div_lt_self (show 0 < n by omega) (show 1 < 10 by omega)
        omega
      rw [if_neg h10, ih (n / 10) _ hlt, digitsAux_ge hge]
      simp

theorem repr_eq_digitsAux (n : ℕ) : Nat.repr n = (digitsAux n).asString := by
  unfold Nat.repr Nat.toDigits
  rw [toDigitsCore_eq (n + 1) n [] (by omega)]
  simp

theorem digitChar_inj_lt : ∀ a < 10, ∀ b < 10,
    Nat.digitChar a = Nat.digitChar b → a = b := by decide

theorem digitChar_ne_dash : ∀ a < 10, Nat.digitChar a ≠ '-' := by decide

theorem digitChar_ne_zero : ∀ a < 10, 0 < a → Nat.digitChar a ≠ '0' := by
  decide

theorem digitsAux_ne_nil (n : ℕ) : digitsAux n ≠ [] := by
  by_cases h : n < 10
  · rw [digitsAux_lt h]
    simp
  · rw [digitsAux_ge h]
    simp

theorem digitsAux_no_dash (n : ℕ) : ∀ c ∈ digitsAux n, c ≠ '-' := by
  induction n using Nat.strong_induction_on with
  | _ n ih =>
    by_cases h : n < 10
    · rw [digitsAux_lt h]
      intro c hc
      simp at hc
      subst hc
      exact digitChar_ne_dash n h
    · rw [digitsAux_ge h]
      intro c hc
      rcases List.mem_append.1 hc with hL | hR
      · exact ih (n / 10) (Nat.div_lt_self (by omega) (by omega)) c hL
      · simp at hR
        subst hR
        exact digitChar_ne_dash (n % 10) (Nat.mod_lt _ (by omega))

theorem digitsAux_head_ne_zero (n : ℕ) (h : 0 < n) :
    ∃ c t, digitsAux n = c :: t ∧ c ≠ '0' := by
  induction n using Nat.strong_induction_on with
  | _ n ih =>
    by_cases h10 : n < 10
    · exact ⟨Nat.digitChar n, [], digitsAux_lt h10, digitChar_ne_zero n h10 h⟩
    · obtain ⟨c, t, hct, hc0⟩ :=
        ih (n / 10) (Nat.div_lt_self (by omega) (by omega))
          (Nat.div_pos (by omega) (by omega))
      exact ⟨c, t ++ [Nat.digitChar (n % 10)], by rw [digitsAux_ge h10, hct]; simp, hc0⟩

theorem digitsAux_inj : ∀ m n : ℕ, digitsAux m = digitsAux n → m = n := by
  intro m
  induction m using Nat.strong_induction_on with
  | _ m ih =>
    intro n h
    by_cases hm : m < 10 <;> by_cases hn : n < 10
    · rw [digitsAux_lt hm, digitsAux_lt hn] at h
      simp at h
      exact digitChar_inj_lt m hm n hn h
    · rw [digitsAux_lt hm, digitsAux_ge hn] at h
      have := congrArg List.length h
      simp at this
      exact absurd this (digitsAux_ne_nil (n / 10))
    · rw [digitsAux_ge hm, digitsAux_lt hn] at h
      have := congrArg List.length h
      simp at this
      exact absurd this (fun he => digitsAux_ne_nil (m / 10) he)
    · rw [digitsAux_ge hm, digitsAux_ge hn] at h
      have hrev := congrArg List.reverse h
      simp at hrev
      obtain ⟨hdg, hpre⟩ := hrev
      have hdiv : m / 10 = n / 10 := by
        apply ih (m / 10) (Nat.div_lt_self (by omega) (by omega))
        have := congrArg List.reverse hpre
        simpa using this
      have hmod : m % 10 = n % 10 :=
        digitChar_inj_lt _ (Nat.mod_lt _ (by omega)) _ (Nat.mod_lt _ (by omega)) hdg
      omega

theorem repr_inj : ∀ m n : ℕ, Nat.repr m = Nat.repr n → m = n := by
  intro m n h
  rw [repr_eq_digitsAux, repr_eq_digitsAux] at h
  apply digitsAux_inj
  have := congrArg String.data h
  simpa [List.asString] using this

theorem natToString_eq_repr (n : ℕ) : toString n = Nat.repr n := rfl

theorem string_ext {s1 s2 : String} (h : s1.data = s2.data) : s1 = s2 := by
  cases s1
  cases s2
  exact congrArg String.mk h

theorem fmt03_data (n : ℕ) :
    (fmt03 n).data =
      List.replicate (3 - (digitsAux n).length) '0' ++ digitsAux n := by
  unfold fmt03
  rw [repr_eq_digitsAux]
  by_cases h : ((digitsAux n).asString).length < 3
  · rw [if_pos h]
    simp [List.asString, String.length]
  · rw [if_neg h]
    have h3 : 3 - (digitsAux n).length = 0 := by
      simp [List.asString, String.length] at h
      omega
    simp [List.asString, h3]

theorem fmt03_no_dash (n : ℕ) : ∀ c ∈ (fmt03 n).data, c ≠ '-' := by
  rw [fmt03_data]
  intro c hc
  rcases List.mem_append.1 hc with hL | hR
  · have := List.eq_of_mem_replicate hL
    subst this
    decide
  · exact digitsAux_no_dash n c hR

theorem dropWhile_zero_replicate (k : ℕ) (l : List Char) :
    List.dropWhile (fun c => c == '0') (List.replicate k '0' ++ l) =
      List.dropWhile (fun c => c == '0') l := by
  induction k with
  | zero => simp
  | succ k ih => simp [List.replicate_succ, List.dropWhile_cons, ih]

theorem dropWhile_zero_digitsAux (k : ℕ) (hk : 0 < k) :
    List.dropWhile (fun c => c == '0') (digitsAux k) = digitsAux k := by
  obtain ⟨c, t, hct, hc⟩ := digitsAux_head_ne_zero k hk
  rw [hct, List.dropWhile_cons]
  simp [hc]

theorem fmt03_inj_data : ∀ a b : ℕ, (fmt03 a).data = (fmt03 b).data → a = b := by
  intro a b h
  rw [fmt03_data, fmt03_data] at h
  have hdw := congrArg (List.dropWhile (fun c => c == '0')) h
  rw [dropWhile_zero_replicate, dropWhile_zero_replicate] at hdw
  have h0 : digitsAux 0 = ['0'] := by rw [digitsAux_lt (by omega)]; rfl
  rcases Nat.eq_zero_or_pos a with ha | ha <;>
    rcases Nat.eq_zero_or_pos b with hb | hb
  · omega
  · exfalso
    subst ha
    rw [h0, dropWhile_zero_digitsAux b hb] at hdw
    simp [List.dropWhile_cons] at hdw
    exact digitsAux_ne_nil b hdw
  · exfalso
    subst hb
    rw [h0, dropWhile_zero_digitsAux a ha] at hdw
    simp [List.dropWhile_cons] at hdw
    exact digitsAux_ne_nil a hdw
  · rw [dropWhile_zero_digitsAux a ha, dropWhile_zero_digitsAux b hb] at hdw
    exact digitsAux_inj a b hdw

theorem workerIdStr_data (j : String) (i : ℕ) :
    (workerIdStr j i).data =
      "worker-".data ++ (j.data ++ ('-' :: (fmt03 i).data)) := by
  simp [workerIdStr]

theorem workerIdStr_inj_idx (j : String) :
    Function.Injective (fun i => workerIdStr j i) := by
  intro i1 i2 h
  have hd := congrArg String.data h
  rw [workerIdStr_data, workerIdStr_data] at hd
  have h1 := List.append_cancel_left hd
  have h2 := List.append_cancel_left h1
  injection h2 with _ h3
  exact fmt03_inj_data i1 i2 h3

theorem dashfree_append_inj :
    ∀ r1 r2 s1 s2 : List Char, (∀ c ∈ r1, c ≠ '-') → (∀ c ∈ r2, c ≠ '-') →
      r1 ++ '-' :: s1 = r2 ++ '-' :: s2 → r1 = r2 ∧ s1 = s2 := by
  intro r1
  induction r1 with
  | nil =>
    intro r2 s1 s2 _ h2 h
    cases r2 with
    | nil => simpa using h
    | cons b u =>
      exfalso
      simp at h
      exact h2 b (by simp) h.1.symm
  | cons a t ih =>
    intro r2 s1 s2 h1 h2 h
    cases r2 with
    | nil =>
      exfalso
      simp at h
      exact h1 a (by simp) h.1
    | cons b u =>
      simp at h
      obtain ⟨hab, hrest⟩ := h
      obtain ⟨htu, hs⟩ := ih u s1 s2 (fun c hc => h1 c (by simp [hc]))
        (fun c hc => h2 c (by simp [hc])) hrest
      exact ⟨by rw [hab, htu], hs⟩

theorem rev_shape (j f : List Char) :
    (j ++ ('-' :: f)).reverse = f.reverse ++ ('-' :: j.reverse) := by
  simp

theorem workerIdStr_ne_of_job_ne {j1 j2 : String} (h : j1 ≠ j2) (i1 i2 : ℕ) :
    workerIdStr j1 i1 ≠ workerIdStr j2 i2 := by
  intro he
  have hd := congrArg String.data he
  rw [workerIdStr_data, workerIdStr_data] at hd
  have h1 := List.append_cancel_left hd
  have hr := congrArg List.reverse h1
  rw [rev_shape, rev_shape] at hr
  have hfree1 : ∀ c ∈ (fmt03 i1).data.reverse, c ≠ '-' := by
    intro c hc
    exact fmt03_no_dash i1 c (List.mem_reverse.1 hc)
  have hfree2 : ∀ c ∈ (fmt03 i2).data.reverse, c ≠ '-' := by
    intro c hc
    exact fmt03_no_dash i2 c (List.mem_reverse.1 hc)
  obtain ⟨_, hj⟩ := dashfree_append_inj _ _ _ _ hfree1 hfree2 hr
  exact h (string_ext (List.reverse_injective hj))

/-! ### Association list (Python dict) lemmas -/

theorem lookupA_dictSet_self {α : Type} (l : List (String × α)) (k : String)
    (v : α) : lookupA (dictSet l k v) k = some v := by
  induction l with
  | nil => simp [dictSet, lookupA]
  | cons p t ih =>
    by_cases h : p.1 = k
    · simp [dictSet, lookupA, h]
    · simp [dictSet, lookupA, h, ih]

theorem lookupA_dictSet_ne {α : Type} (l : List (String × α)) {k k' : String}
    (v : α) (h : k' ≠ k) : lookupA (dictSet l k v) k' = lookupA l k' := by
  induction l with
  | nil =>
    show lookupA [(k, v)] k' = lookupA [] k'
    have hk : ¬k = k' := fun he => h he.symm
    simp [lookupA, hk]
  | cons p t ih =>
    obtain ⟨k1, v1⟩ := p
    show lookupA (if k1 = k then (k1, v) :: t else (k1, v1) :: dictSet t k v) k'
      = lookupA ((k1, v1) :: t) k'
    by_cases h1 : k1 = k
    · rw [if_pos h1]
      have hk1 : ¬k1 = k' := fun he => h (he.symm.trans h1)
      simp [lookupA, hk1]
    · rw [if_neg h1]
      by_cases h2 : k1 = k'
      · simp [lookupA, h2]
      · simp [lookupA, h2, ih]

theorem dictSet_of_lookupA_none {α : Type} {l : List (String × α)}
    {k : String} (v : α) (h : lookupA l k = none) :
    dictSet l k v = l ++ [(k, v)] := by
  induction l with
  | nil => simp [dictSet]
  | cons p t ih =>
    by_cases hp : p.1 = k
    · simp [lookupA, hp] at h
    · simp [lookupA, hp] at h
      simp [dictSet, hp, ih h]

theorem lookupA_none_iff {α : Type} (l : List (String × α)) (k : String) :
    lookupA l k = none ↔ k ∉ l.map Prod.fst := by
  induction l with
  | nil => simp [lookupA]
  | cons p t ih =>
    obtain ⟨k1, v1⟩ := p
    by_cases hp : k1 = k
    · subst hp
      simp [lookupA]
    · have hk : ¬k = k1 := fun he => hp he.symm
      simp [lookupA, hp, ih, hk]

theorem lookupA_some_mem {α : Type} {l : List (String × α)} {k : String}
    {v : α} (h : lookupA l k = some v) : (k, v) ∈ l := by
  induction l with
  | nil => simp [lookupA] at h
  | cons p t ih =>
    obtain ⟨k1, v1⟩ := p
    by_cases hp : k1 = k
    · subst hp
      simp [lookupA] at h
      subst h
      exact List.mem_cons_self _ _
    · simp [lookupA, hp] at h
      exact List.mem_cons_of_mem _ (ih h)

theorem lookupA_append_some {α : Type} {l1 : List (String × α)}
    (l2 : List (String × α)) {k : String} {v : α}
    (h : lookupA l1 k = some v) : lookupA (l1 ++ l2) k = some v := by
  induction l1 with
  | nil => simp [lookupA] at h
  | cons p t ih =>
    by_cases hp : p.1 = k
    · simp [lookupA, hp] at h ⊢
      exact h
    · simp [lookupA, hp] at h ⊢
      exact ih h

theorem lookupA_append_none {α : Type} {l1 : List (String × α)}
    (l2 : List (String × α)) {k : String} (h : lookupA l1 k = none) :
    lookupA (l1 ++ l2) k = lookupA l2 k := by
  induction l1 with
  | nil => simp
  | cons p t ih =>
    by_cases hp : p.1 = k
    · simp [lookupA, hp] at h
    · simp [lookupA, hp] at h ⊢
      exact ih h

theorem lookupA_decomp {α : Type} {l : List (String × α)} {k : String}
    {v : α} (h : lookupA l k = some v) :
    ∃ l1 l2, l = l1 ++ (k, v) :: l2 ∧ (∀ p ∈ l1, p.1 ≠ k) ∧
      ∀ w, dictSet l k w = l1 ++ (k, w) :: l2 := by
  induction l with
  | nil => simp [lookupA] at h
  | cons p t ih =>
    by_cases hp : p.1 = k
    · simp [lookupA, hp] at h
      refine ⟨[], t, ?_, by simp, ?_⟩
      · subst h
        simp [← hp]
      · intro w
        obtain ⟨k1, v1⟩ := p
        simp at hp
        subst hp
        simp [dictSet]
    · simp [lookupA, hp] at h
      obtain ⟨l1, l2, he, hne, hset⟩ := ih h
      refine ⟨p :: l1, l2, by simp [he], ?_, ?_⟩
      · intro q hq
        rcases List.mem_cons.1 hq with hq | hq
        · subst hq
          exact hp
        · exact hne q hq
      · intro w
        obtain ⟨k1, v1⟩ := p
        simp [dictSet, hp, hset w]

theorem lookupA_get {α : Type} {l : List (String × α)} {k : String} {v : α}
    (h : lookupA l k = some v) :
    ∃ (i : ℕ) (hi : i < l.length), l.get ⟨i, hi⟩ = (k, v) := by
  induction l with
  | nil => simp [lookupA] at h
  | cons p t ih =>
    by_cases hp : p.1 = k
    · simp [lookupA, hp] at h
      subst h
      refine ⟨0, by simp, ?_⟩
      obtain ⟨k1, v1⟩ := p
      simp at hp
      simp [hp]
    · simp [lookupA, hp] at h
      obtain ⟨i, hi, hg⟩ := ih h
      exact ⟨i + 1, by simpa using hi, by simpa using hg⟩

/-! ### Ledger sums over the allocation registry -/

/-- The allocations whose committed quantities the Ledger counters are
supposed to track: those in `Active` or `Releasing` state. -/
def inLedger (a : ResourceAllocation) : Prop :=
  a.state = .ACTIVE ∨ a.state = .RELEASING

instance (a : ResourceAllocation) : Decidable (inLedger a) := by
  unfold inLedger
  infer_instance

def cpuOf (a : ResourceAllocation) : ℚ :=
  if inLedger a then a.cpu_allocated else 0

def memOf (a : ResourceAllocation) : ℤ :=
  if inLedger a then a.memory_allocated else 0

def wrkOf (a : ResourceAllocation) : ℤ :=
  if inLedger a then (a.workers_allocated.length : ℤ) else 0

/-- Sum of committed cpu over Active/Releasing allocations. -/
def cpuSum (l : List (String × ResourceAllocation)) : ℚ :=
  (l.map (fun p => cpuOf p.2)).sum

/-- Sum of committed memory over Active/Releasing allocations. -/
def memSum (l : List (String × ResourceAllocation)) : ℤ :=
  (l.map (fun p => memOf p.2)).sum

/-- Sum of committed workers over Active/Releasing allocations. -/
def wrkSum (l : List (String × ResourceAllocation)) : ℤ :=
  (l.map (fun p => wrkOf p.2)).sum

theorem cpuSum_append (l1 l2 : List (String × ResourceAllocation)) :
    cpuSum (l1 ++ l2) = cpuSum l1 + cpuSum l2 := by
  simp [cpuSum]

theorem memSum_append (l1 l2 : List (String × ResourceAllocation)) :
    memSum (l1 ++ l2) = memSum l1 + memSum l2 := by
  simp [memSum]

theorem wrkSum_append (l1 l2 : List (String × ResourceAllocation)) :
    wrkSum (l1 ++ l2) = wrkSum l1 + wrkSum l2 := by
  simp [wrkSum]

theorem cpuSum_cons (p : String × ResourceAllocation)
    (l : List (String × ResourceAllocation)) :
    cpuSum (p :: l) = cpuOf p.2 + cpuSum l := by
  simp [cpuSum]

theorem memSum_cons (p : String × ResourceAllocation)
    (l : List (String × ResourceAllocation)) :
    memSum (p :: l) = memOf p.2 + memSum l := by
  simp [memSum]

theorem wrkSum_cons (p : String × ResourceAllocation)
    (l : List (String × ResourceAllocation)) :
    wrkSum (p :: l) = wrkOf p.2 + wrkSum l := by
  simp [wrkSum]

/-! ### Invariants of reachable manager states -/

/-- Facts holding of every allocation record stored in the registry. -/
structure EntryInv (reg : List (String × MCPServerSpec))
    (a : ResourceAllocation) : Prop where
  cpu_nonneg : 0 ≤ a.cpu_allocated
  mem_nonneg : 0 ≤ a.memory_allocated
  state_ok : a.state = .ACTIVE ∨ a.state = .RELEASED ∨ a.state = .FAILED
  failed_empty : a.state = .FAILED → a.workers_allocated = []
  empty_zero : a.workers_allocated = [] →
    a.cpu_allocated = 0 ∧ a.memory_allocated = 0
  specs_reg : ∀ s ∈ a.mcp_server_specs, lookupA reg s.server_name = some s
  wid_shape : a.workers_allocated.map (fun w => w.worker_id) =
    (List.range a.workers_allocated.length).map (fun i => workerIdStr a.job_id i)

/-- Facts holding of the MCP server registry and the port cursor. -/
structure RegInv (reg : List (String × MCPServerSpec)) (idx : ℕ) : Prop where
  keys_nodup : (reg.map Prod.fst).Nodup
  idx_eq : idx = reg.length % 100
  entry : ∀ (i : ℕ) (hi : i < reg.length),
    (reg.get ⟨i, hi⟩).2.server_name = (reg.get ⟨i, hi⟩).1 ∧
    (reg.get ⟨i, hi⟩).2.status = "running" ∧
    (reg.get ⟨i, hi⟩).2.port = some (9000 + i % 100) ∧
    (reg.get ⟨i, hi⟩).2.endpoint =
      some ("http://localhost:" ++ toString (9000 + i % 100))

/-- The full invariant maintained by every manager operation. -/
structure Inv (m : AllocationManager) : Prop where
  wcpu : m.worker_cpu = 1
  wmem : m.worker_memory = 2048
  ports : m.mcp_server_ports = (List.range 100).map (fun i => 9000 + i)
  tcpu_nonneg : 0 ≤ m.capacity.total_cpu
  tmem_nonneg : 0 ≤ m.capacity.total_memory
  twrk_nonneg : 0 ≤ m.capacity.total_workers
  cpu_le : m.capacity.allocated_cpu ≤ m.capacity.total_cpu
  mem_le : m.capacity.allocated_memory ≤ m.capacity.total_memory
  wrk_le : m.capacity.allocated_workers ≤ m.capacity.total_workers
  cpu_sum : m.capacity.allocated_cpu = cpuSum m.allocations
  mem_sum : m.capacity.allocated_memory = memSum m.allocations
  wrk_sum : m.capacity.allocated_workers = wrkSum m.allocations
  keys_nodup : (m.allocations.map Prod.fst).Nodup
  entries : ∀ p ∈ m.allocations, EntryInv m.mcp_server_registry p.2
  reg : RegInv m.mcp_server_registry m.next_port_idx

/-! ### Effect lemmas for the MCP server registry -/

theorem pool_length : ((List.range 100).map (fun i => 9000 + i)).length = 100 := by
  simp

theorem pool_getD (i : ℕ) (h : i < 100) :
    ((List.range 100).map (fun i => 9000 + i)).getD i 0 = 9000 + i := by
  rw [List.getD_eq_getElem?_getD, List.getElem?_map, List.getElem?_range h]
  rfl

theorem regInv_lookup {reg : List (String × MCPServerSpec)} {idx : ℕ}
    (hreg : RegInv reg idx) {k : String} {v : MCPServerSpec}
    (h : lookupA reg k = some v) :
    v.server_name = k ∧ v.status = "running" := by
  obtain ⟨i, hi, hg⟩ := lookupA_get h
  have hE := hreg.entry i hi
  rw [hg] at hE
  exact ⟨hE.1, hE.2.1⟩

/-- The full effect of `_start_mcp_server_new` as one equation. -/
theorem start_new_eq (m : AllocationManager) (name : String)
    (hreg : RegInv m.mcp_server_registry m.next_port_idx)
    (hports : m.mcp_server_ports = (List.range 100).map (fun i => 9000 + i)) :
    _start_mcp_server_new m name =
      (⟨name, some ("http://localhost:" ++
          toString (9000 + m.mcp_server_registry.length % 100)), "running",
          some (9000 + m.mcp_server_registry.length % 100)⟩,
       { m with
         mcp_server_registry := dictSet m.mcp_server_registry name
           ⟨name, some ("http://localhost:" ++
             toString (9000 + m.mcp_server_registry.length % 100)), "running",
             some (9000 + m.mcp_server_registry.length % 100)⟩
         next_port_idx := (m.next_port_idx + 1) % m.mcp_server_ports.length
         capacity := { m.capacity with
           running_mcp_servers :=
             if name ∈ m.capacity.running_mcp_servers then
               m.capacity.running_mcp_servers
             else m.capacity.running_mcp_servers ++ [name] } }) := by
  have hmodlt : m.mcp_server_registry.length % 100 < 100 := Nat.mod_lt _ (by omega)
  have hport : m.mcp_server_ports.getD m.next_port_idx 0 =
      9000 + m.mcp_server_registry.length % 100 := by
    rw [hports, hreg.idx_eq]
    exact pool_getD _ hmodlt
  have hport2 : m.mcp_server_ports[m.next_port_idx]?.getD 0 =
      9000 + m.mcp_server_registry.length % 100 := by
    rw [← List.getD_eq_getElem?_getD]
    exact hport
  unfold _start_mcp_server_new _allocate_port
  by_cases hmem : name ∈ m.capacity.running_mcp_servers <;>
    simp [hmem, hport, hport2]

theorem get_append_left_gen {α : Type} (l1 l2 : List α) (i : ℕ)
    (h : i < l1.length) (h2 : i < (l1 ++ l2).length) :
    (l1 ++ l2).get ⟨i, h2⟩ = l1.get ⟨i, h⟩ := by
  simp [List.get_eq_getElem, List.getElem_append_left h]

/-- Everything the registry-touching half of a `_start_mcp_server` call
guarantees, packaged for the fold over requested server names. -/
theorem start_spec (m : AllocationManager) (name : String)
    (hreg : RegInv m.mcp_server_registry m.next_port_idx)
    (hports : m.mcp_server_ports = (List.range 100).map (fun i => 9000 + i)) :
    (∃ rs, (_start_mcp_server m name).2 =
      { m with
        mcp_server_registry := (_start_mcp_server m name).2.mcp_server_registry
        next_port_idx := (_start_mcp_server m name).2.next_port_idx
        capacity := { m.capacity with running_mcp_servers := rs } }) ∧
    RegInv (_start_mcp_server m name).2.mcp_server_registry
      (_start_mcp_server m name).2.next_port_idx ∧
    (∀ n v, lookupA m.mcp_server_registry n = some v →
      lookupA (_start_mcp_server m name).2.mcp_server_registry n = some v) ∧
    lookupA (_start_mcp_server m name).2.mcp_server_registry name =
      some (_start_mcp_server m name).1 ∧
    (_start_mcp_server m name).1.server_name = name := by
  cases hl : lookupA m.mcp_server_registry name with
  | some spec =>
    have hst : spec.status = "running" := (regInv_lookup hreg hl).2
    have heq : _start_mcp_server m name = (spec, m) := by
      unfold _start_mcp_server
      rw [hl]
      simp [hst]
    rw [heq]
    exact ⟨⟨m.capacity.running_mcp_servers, rfl⟩, hreg, fun n v h => h, hl,
      (regInv_lookup hreg hl).1⟩
  | none =>
    have heq : _start_mcp_server m name = _start_mcp_server_new m name := by
      unfold _start_mcp_server
      rw [hl]
    rw [heq, start_new_eq m name hreg hports]
    have hmodlt : m.mcp_server_registry.length % 100 < 100 :=
      Nat.mod_lt _ (by omega)
    have hname_notin : name ∉ m.mcp_server_registry.map Prod.fst :=
      (lookupA_none_iff _ _).1 hl
    have hsetapp := dictSet_of_lookupA_none
      (⟨name, some ("http://localhost:" ++
          toString (9000 + m.mcp_server_registry.length % 100)), "running",
          some (9000 + m.mcp_server_registry.length % 100)⟩ : MCPServerSpec) hl
    refine ⟨⟨_, rfl⟩, ?_, ?_, ?_, rfl⟩
    · show RegInv (dictSet _ _ _) _
      rw [hsetapp]
      refine ⟨?_, ?_, ?_⟩
      · rw [List.map_append]
        refine List.Nodup.append hreg.keys_nodup (by simp) ?_
        intro a ha hb
        simp at hb
        subst hb
        exact hname_notin ha
      · rw [hports, pool_length, hreg.idx_eq]
        simp only [List.length_append, List.length_singleton]
        omega
      · intro i hi2
        simp only [List.length_append, List.length_singleton] at hi2
        by_cases hilt : i < m.mcp_server_registry.length
        · rw [get_append_left_gen _ _ i hilt]
          exact hreg.entry i hilt
        · have hie : i = m.mcp_server_registry.length := by omega
          subst hie
          have hget : ((m.mcp_server_registry ++
              [(name, (⟨name, some ("http://localhost:" ++
                toString (9000 + m.mcp_server_registry.length % 100)), "running",
                some (9000 + m.mcp_server_registry.length % 100)⟩ :
                  MCPServerSpec))]).get
                ⟨m.mcp_server_registry.length, by simp⟩) =
              (name, (⟨name, some ("http://localhost:" ++
                toString (9000 + m.mcp_server_registry.length % 100)), "running",
                some (9000 + m.mcp_server_registry.length % 100)⟩ :
                  MCPServerSpec)) := by
            simp [List.get_eq_getElem]
          rw [hget]
          exact ⟨rfl, rfl, rfl, rfl⟩
    · intro n v h
      show lookupA (dictSet _ _ _) n = some v
      rw [hsetapp]
      exact lookupA_append_some _ h
    · show lookupA (dictSet _ _ _) name = some _
      rw [hsetapp, lookupA_append_none _ hl]
      simp [lookupA]

theorem startServers_cons (m : AllocationManager) (n : String)
    (t : List String) :
    startServers m (n :: t) =
      ((_start_mcp_server m n).1 ::
        (startServers (_start_mcp_server m n).2 t).1,
       (startServers (_start_mcp_server m n).2 t).2) := by
  rcases he1 : _start_mcp_server m n with ⟨spec, m1⟩
  rcases he2 : startServers m1 t with ⟨specs, m2⟩
  simp [startServers, he1, he2]

/-- Effect of the server-start loop of `request_resources`: the registry
grows, its invariant is preserved, old lookups persist, and every returned
spec is registered under its name; nothing else in the state changes except
the running-server list. -/
theorem startServers_spec (names : List String) (m : AllocationManager)
    (hreg : RegInv m.mcp_server_registry m.next_port_idx)
    (hports : m.mcp_server_ports = (List.range 100).map (fun i => 9000 + i)) :
    (∃ rs, (startServers m names).2 =
      { m with
        mcp_server_registry := (startServers m names).2.mcp_server_registry
        next_port_idx := (startServers m names).2.next_port_idx
        capacity := { m.capacity with running_mcp_servers := rs } }) ∧
    RegInv (startServers m names).2.mcp_server_registry
      (startServers m names).2.next_port_idx ∧
    (∀ n v, lookupA m.mcp_server_registry n = some v →
      lookupA (startServers m names).2.mcp_server_registry n = some v) ∧
    (∀ s ∈ (startServers m names).1,
      lookupA (startServers m names).2.mcp_server_registry s.server_name =
        some s) := by
  induction names generalizing m with
  | nil =>
    refine ⟨⟨m.capacity.running_mcp_servers, ?_⟩, hreg, fun n v h => h, by simp [startServers]⟩
    simp [startServers]
  | cons n t ih =>
    obtain ⟨⟨rs1, hm1⟩, hreg1, hmono1, hlook1, hsn1⟩ := start_spec m n hreg hports
    have hports1 : (_start_mcp_server m n).2.mcp_server_ports =
        (List.range 100).map (fun i => 9000 + i) := by
      rw [hm1]
      exact hports
    obtain ⟨⟨rs2, hm2⟩, hreg2, hmono2, hlook2⟩ :=
      ih (_start_mcp_server m n).2 hreg1 hports1
    rw [startServers_cons]
    refine ⟨⟨rs2, ?_⟩, hreg2, ?_, ?_⟩
    · show (startServers (_start_mcp_server m n).2 t).2 = _
      rw [hm2, hm1]
    · intro n' v h
      exact hmono2 n' v (hmono1 n' v h)
    · intro s hs
      rcases List.mem_cons.1 hs with hs' | hs'
      · subst hs'
        show lookupA _ (_start_mcp_server m n).1.server_name = _
        rw [hsn1]
        exact hmono2 _ _ hlook1
      · exact hlook2 s hs'

/-! ### Case equations for `request_resources` -/

/-- The admission-failure path of `request_resources`. -/
theorem request_fail_eq (m : AllocationManager) (aid jid : String)
    (servers : List String) (w : ℤ) (prio : String) (ttl : ℤ)
    (md : List (String × String)) (now : ℤ) (msg : Option String)
    (hw : 0 < w) (hC : _check_capacity m w = (false, msg)) :
    request_resources m aid jid servers (some w) prio ttl md now =
      ({ m with
          allocations :=
            dictSet m.allocations aid
              { allocation_id := aid
                job_id := jid
                state := .FAILED
                priority := parsePriority prio
                mcp_servers := servers
                workers_requested := some w
                mcp_server_specs := []
                workers_allocated := []
                cpu_allocated := 0
                memory_allocated := 0
                created_at := now
                activated_at := none
                released_at := none
                ttl_seconds := ttl
                metadata := dictSet md "error" (msg.getD "") } },
       { allocation_id := aid
         status := "failed"
         error := msg
         mcp_servers := []
         workers_allocated := []
         resources_cpu := 0
         resources_memory := 0
         resources_workers := 0 }) := by
  unfold request_resources
  simp [wantsWorkers, hw, hC]

/-- The success path of `request_resources` when no workers are requested. -/
theorem request_succ_eq_noworkers (m : AllocationManager) (aid jid : String)
    (servers : List String) (workers : Option ℤ) (prio : String) (ttl : ℤ)
    (md : List (String × String)) (now : ℤ)
    (hW : wantsWorkers workers = false) :
    request_resources m aid jid servers workers prio ttl md now =
      ({ (startServers m servers).2 with
          capacity :=
            { (startServers m servers).2.capacity with
                active_allocations :=
                  (startServers m servers).2.capacity.active_allocations + 1 }
          allocations :=
            dictSet (startServers m servers).2.allocations aid
              { allocation_id := aid
                job_id := jid
                state := .ACTIVE
                priority := parsePriority prio
                mcp_servers := servers
                workers_requested := workers
                mcp_server_specs := (startServers m servers).1
                workers_allocated := []
                cpu_allocated := 0
                memory_allocated := 0
                created_at := now
                activated_at := some now
                released_at := none
                ttl_seconds := ttl
                metadata := md } },
       { allocation_id := aid
         status := "active"
         error := none
         mcp_servers :=
           (startServers m servers).1.map
             (fun s => (s.server_name, s.endpoint, s.status))
         workers_allocated := []
         resources_cpu := 0
         resources_memory := 0
         resources_workers := 0 }) := by
  rcases hS : startServers m servers with ⟨specs, m2⟩
  unfold request_resources
  simp [hW, hS]

/-- The success path of `request_resources` when `w > 0` workers are
requested and the admission check passes. -/
theorem request_succ_eq_workers (m : AllocationManager) (aid jid : String)
    (servers : List String) (w : ℤ) (prio : String) (ttl : ℤ)
    (md : List (String × String)) (now : ℤ) (msg : Option String)
    (hw : 0 < w) (hC : _check_capacity m w = (true, msg)) :
    request_resources m aid jid servers (some w) prio ttl md now =
      ({ (startServers m servers).2 with
          capacity :=
            { (startServers m servers).2.capacity with
                allocated_cpu :=
                  (startServers m servers).2.capacity.allocated_cpu +
                    w * (startServers m servers).2.worker_cpu
                allocated_memory :=
                  (startServers m servers).2.capacity.allocated_memory +
                    w * (startServers m servers).2.worker_memory
                allocated_workers :=
                  (startServers m servers).2.capacity.allocated_workers + w
                active_allocations :=
                  (startServers m servers).2.capacity.active_allocations + 1 }
          allocations :=
            dictSet (startServers m servers).2.allocations aid
              { allocation_id := aid
                job_id := jid
                state := .ACTIVE
                priority := parsePriority prio
                mcp_servers := servers
                workers_requested := some w
                mcp_server_specs := (startServers m servers).1
                workers_allocated :=
                  _provision_workers (startServers m servers).2 w jid
                cpu_allocated := w * (startServers m servers).2.worker_cpu
                memory_allocated := w * (startServers m servers).2.worker_memory
                created_at := now
                activated_at := some now
                released_at := none
                ttl_seconds := ttl
                metadata := md } },
       { allocation_id := aid
         status := "active"
         error := none
         mcp_servers :=
           (startServers m servers).1.map
             (fun s => (s.server_name, s.endpoint, s.status))
         workers_allocated :=
           (_provision_workers (startServers m servers).2 w jid).map
             (fun wk => (wk.worker_id, wk.endpoint, wk.cpu, wk.memory))
         resources_cpu := w * (startServers m servers).2.worker_cpu
         resources_memory := w * (startServers m servers).2.worker_memory
         resources_workers :=
           (_provision_workers (startServers m servers).2 w jid).length }) := by
  rcases hS : startServers m servers with ⟨specs, m2⟩
  unfold request_resources
  simp [wantsWorkers, hw, hC, hS]

/-! ### Case equations for `release_resources` -/

/-- The record transform `release_resources` applies to a record it actually
releases (the composition of its `Releasing` and `Released` updates). -/
def releasedRecord (a : ResourceAllocation) (now : ℤ) : ResourceAllocation :=
  { a with
    state := .RELEASED
    workers_allocated :=
      a.workers_allocated.map (fun w => { w with status := "destroying" })
    released_at := some now }

/-- The Ledger transform `release_resources` applies on an actual release. -/
def releaseCapacity (c : ClusterCapacity) (a : ResourceAllocation) :
    ClusterCapacity :=
  let c1 :=
    if 0 < a.workers_allocated.length then
      { c with
        allocated_workers := c.allocated_workers - a.workers_allocated.length
        allocated_cpu := c.allocated_cpu - a.cpu_allocated
        allocated_memory := c.allocated_memory - a.memory_allocated }
    else c
  { c1 with active_allocations := c1.active_allocations - 1 }

theorem release_notfound_eq (m : AllocationManager) (aid : String) (now : ℤ)
    (hl : lookupA m.allocations aid = none) :
    release_resources m aid now =
      (m,
       { status := "error"
         error := some ("Allocation " ++ aid ++ " not found")
         allocation_id := none
         workers_released := 0
         cpu_freed := 0
         memory_freed := 0
         released_at := none
         duration_seconds := none }) := by
  unfold release_resources
  rw [hl]

theorem release_already_eq (m : AllocationManager) (aid : String) (now : ℤ)
    (a : ResourceAllocation) (hl : lookupA m.allocations aid = some a)
    (h1 : a.state = .RELEASED ∨ a.state = .RELEASING) :
    release_resources m aid now =
      (m,
       { status := "already_released"
         error := none
         allocation_id := some aid
         workers_released := 0
         cpu_freed := 0
         memory_freed := 0
         released_at := a.released_at
         duration_seconds := none }) := by
  unfold release_resources
  rw [hl]
  simp [h1]

theorem release_eq (m : AllocationManager) (aid : String) (now : ℤ)
    (a : ResourceAllocation) (hl : lookupA m.allocations aid = some a)
    (h1 : ¬(a.state = .RELEASED ∨ a.state = .RELEASING)) :
    release_resources m aid now =
      ({ m with
          capacity := releaseCapacity m.capacity a
          allocations := dictSet m.allocations aid (releasedRecord a now) },
       { status := "released"
         error := none
         allocation_id := some aid
         workers_released := a.workers_allocated.length
         cpu_freed := a.cpu_allocated
         memory_freed := a.memory_allocated
         released_at := some now
         duration_seconds := some (now - a.created_at) }) := by
  unfold release_resources releasedRecord releaseCapacity
  rw [hl]
  simp [h1]

/-! ### Characterization of the admission check -/

theorem check_false_iff (m : AllocationManager) (w : ℤ) :
    (_check_capacity m w).1 = false ↔
      (w > m.capacity.available_workers ∨
       (w : ℚ) * m.worker_cpu > m.capacity.available_cpu ∨
       w * m.worker_memory > m.capacity.available_memory) := by
  unfold _check_capacity
  by_cases h1 : w > m.capacity.available_workers
  · simp [h1]
  · rw [if_neg h1]
    by_cases h2 : (w : ℚ) * m.worker_cpu > m.capacity.available_cpu
    · simp [h1, h2]
    · rw [if_neg h2]
      by_cases h3 : w * m.worker_memory > m.capacity.available_memory
      · simp [h1, h2, h3]
      · rw [if_neg h3]
        simp [h1, h2, h3]

theorem check_false_reason (m : AllocationManager) (w : ℤ)
    (h : (_check_capacity m w).1 = false) :
    ∃ s, (_check_capacity m w).2 = some s := by
  unfold _check_capacity at h ⊢
  by_cases h1 : w > m.capacity.available_workers
  · simp [h1]
  · rw [if_neg h1] at h ⊢
    by_cases h2 : (w : ℚ) * m.worker_cpu > m.capacity.available_cpu
    · simp [h2]
    · rw [if_neg h2] at h ⊢
      by_cases h3 : w * m.worker_memory > m.capacity.available_memory
      · simp [h3]
      · rw [if_neg h3] at h
        simp at h

theorem check_true_none (m : AllocationManager) (w : ℤ)
    (h : (_check_capacity m w).1 = true) :
    (_check_capacity m w).2 = none := by
  unfold _check_capacity at h ⊢
  by_cases h1 : w > m.capacity.available_workers
  · rw [if_pos h1] at h
    simp at h
  · rw [if_neg h1] at h ⊢
    by_cases h2 : (w : ℚ) * m.worker_cpu > m.capacity.available_cpu
    · rw [if_pos h2] at h
      simp at h
    · rw [if_neg h2] at h ⊢
      by_cases h3 : w * m.worker_memory > m.capacity.available_memory
      · rw [if_pos h3] at h
        simp at h
      · rw [if_neg h3]

theorem check_true_bounds (m : AllocationManager) (w : ℤ)
    (h : (_check_capacity m w).1 = true) :
    w ≤ m.capacity.available_workers ∧
    (w : ℚ) * m.worker_cpu ≤ m.capacity.available_cpu ∧
    w * m.worker_memory ≤ m.capacity.available_memory := by
  have hf := (check_false_iff m w).not
  rcases hb : (_check_capacity m w).1 with _ | _
  · rw [hb] at h
    cases h
  · have := hf.1 (by rw [hb]; simp)
    push_neg at this
    exact this

/-! ### Invariant preservation -/

theorem cpuOf_nonneg {reg : List (String × MCPServerSpec)}
    {a : ResourceAllocation} (hE : EntryInv reg a) : 0 ≤ cpuOf a := by
  unfold cpuOf
  split
  · exact hE.cpu_nonneg
  · exact le_refl 0

theorem memOf_nonneg {reg : List (String × MCPServerSpec)}
    {a : ResourceAllocation} (hE : EntryInv reg a) : 0 ≤ memOf a := by
  unfold memOf
  split
  · exact hE.mem_nonneg
  · exact le_refl 0

theorem wrkOf_nonneg (a : ResourceAllocation) : 0 ≤ wrkOf a := by
  unfold wrkOf
  split
  · exact Int.ofNat_nonneg _
  · exact le_refl 0

theorem cpuOf_released (a : ResourceAllocation) (now : ℤ) :
    cpuOf (releasedRecord a now) = 0 := by
  simp [cpuOf, inLedger, releasedRecord]

theorem memOf_released (a : ResourceAllocation) (now : ℤ) :
    memOf (releasedRecord a now) = 0 := by
  simp [memOf, inLedger, releasedRecord]

theorem wrkOf_released (a : ResourceAllocation) (now : ℤ) :
    wrkOf (releasedRecord a now) = 0 := by
  simp [wrkOf, inLedger, releasedRecord]

theorem entryInv_released {reg : List (String × MCPServerSpec)}
    {a : ResourceAllocation} (hE : EntryInv reg a) (now : ℤ) :
    EntryInv reg (releasedRecord a now) := by
  refine { cpu_nonneg := hE.cpu_nonneg, mem_nonneg := hE.mem_nonneg,
           state_ok := Or.inr (Or.inl rfl), failed_empty := ?_,
           empty_zero := ?_, specs_reg := hE.specs_reg, wid_shape := ?_ }
  · intro h
    simp [releasedRecord] at h
  · intro h
    simp [releasedRecord] at h
    exact hE.empty_zero h
  · show (a.workers_allocated.map (fun w => { w with status := "destroying" })).map
        (fun w => w.worker_id) = _
    rw [List.map_map]
    have h1 : ((fun (w : WorkerSpec) => w.worker_id) ∘
        (fun w => { w with status := "destroying" })) =
        (fun (w : WorkerSpec) => w.worker_id) := rfl
    rw [h1]
    have h2 : (releasedRecord a now).workers_allocated.length =
        a.workers_allocated.length := by
      simp [releasedRecord]
    have h3 : (releasedRecord a now).job_id = a.job_id := rfl
    calc a.workers_allocated.map (fun w => w.worker_id)
        = (List.range a.workers_allocated.length).map
            (fun i => workerIdStr a.job_id i) := hE.wid_shape
      _ = _ := by rw [h2, h3]

theorem release_contrib (c : ClusterCapacity)
    {reg : List (String × MCPServerSpec)} {a : ResourceAllocation}
    (hE : EntryInv reg a) (h1 : ¬(a.state = .RELEASED ∨ a.state = .RELEASING)) :
    releaseCapacity c a =
      { c with
        allocated_workers := c.allocated_workers - wrkOf a
        allocated_cpu := c.allocated_cpu - cpuOf a
        allocated_memory := c.allocated_memory - memOf a
        active_allocations := c.active_allocations - 1 } := by
  have hstate : a.state = .ACTIVE ∨ a.state = .FAILED := by
    rcases hE.state_ok with h | h | h
    · exact Or.inl h
    · exact absurd (Or.inl h) h1
    · exact Or.inr h
  rcases hstate with hact | hfail
  · have hled : inLedger a := Or.inl hact
    by_cases hlen : 0 < a.workers_allocated.length
    · simp [releaseCapacity, hlen, cpuOf, memOf, wrkOf, hled]
    · have hnil : a.workers_allocated = [] := by
        cases he : a.workers_allocated with
        | nil => rfl
        | cons x t => rw [he] at hlen; simp at hlen
      obtain ⟨hc0, hm0⟩ := hE.empty_zero hnil
      simp [releaseCapacity, hnil, cpuOf, memOf, wrkOf, hled, hc0, hm0]
  · have hled : ¬inLedger a := by
      unfold inLedger
      rw [hfail]
      simp
    have hnil : a.workers_allocated = [] := hE.failed_empty hfail
    simp [releaseCapacity, hnil, cpuOf, memOf, wrkOf, hled]

/-- `AllocationManager.__init__` establishes the invariant. -/
theorem inv_init (total_cpu : ℚ) (total_memory total_workers : ℤ)
    (h1 : 0 ≤ total_cpu) (h2 : 0 ≤ total_memory) (h3 : 0 ≤ total_workers) :
    Inv (initManager total_cpu total_memory total_workers) := by
  refine { wcpu := rfl, wmem := rfl, ports := rfl,
           tcpu_nonneg := h1, tmem_nonneg := h2, twrk_nonneg := h3,
           cpu_le := h1, mem_le := h2, wrk_le := h3,
           cpu_sum := rfl, mem_sum := rfl, wrk_sum := rfl,
           keys_nodup := List.nodup_nil,
           entries := ?_, reg := ⟨List.nodup_nil, rfl, ?_⟩ }
  · intro p hp
    simp [initManager] at hp
  · intro i hi
    simp [initManager] at hi

/-- `release_resources` preserves the invariant. -/
theorem inv_release (m : AllocationManager) (hInv : Inv m) (aid : String)
    (now : ℤ) : Inv (release_resources m aid now).1 := by
  cases hl : lookupA m.allocations aid with
  | none =>
    rw [release_notfound_eq m aid now hl]
    exact hInv
  | some a =>
    by_cases h1 : a.state = .RELEASED ∨ a.state = .RELEASING
    · rw [release_already_eq m aid now a hl h1]
      exact hInv
    · rw [release_eq m aid now a hl h1]
      have hmem := lookupA_some_mem hl
      have hE := hInv.entries _ hmem
      obtain ⟨l1, l2, hdec, hne, hset⟩ := lookupA_decomp hl
      rw [release_contrib m.capacity hE h1, hset (releasedRecord a now)]
      have hsums : m.capacity.allocated_cpu =
          cpuSum l1 + cpuOf a + cpuSum l2 ∧
          m.capacity.allocated_memory = memSum l1 + memOf a + memSum l2 ∧
          m.capacity.allocated_workers = wrkSum l1 + wrkOf a + wrkSum l2 := by
        refine ⟨?_, ?_, ?_⟩
        · rw [hInv.cpu_sum, hdec, cpuSum_append, cpuSum_cons]
          ring
        · rw [hInv.mem_sum, hdec, memSum_append, memSum_cons]
          ring
        · rw [hInv.wrk_sum, hdec, wrkSum_append, wrkSum_cons]
          ring
      refine { wcpu := hInv.wcpu, wmem := hInv.wmem, ports := hInv.ports,
               tcpu_nonneg := hInv.tcpu_nonneg, tmem_nonneg := hInv.tmem_nonneg,
               twrk_nonneg := hInv.twrk_nonneg,
               cpu_le := ?_, mem_le := ?_, wrk_le := ?_,
               cpu_sum := ?_, mem_sum := ?_, wrk_sum := ?_,
               keys_nodup := ?_, entries := ?_, reg := hInv.reg }
      · show m.capacity.allocated_cpu - cpuOf a ≤ m.capacity.total_cpu
        have := cpuOf_nonneg hE
        have := hInv.cpu_le
        linarith
      · show m.capacity.allocated_memory - memOf a ≤ m.capacity.total_memory
        have := memOf_nonneg hE
        have := hInv.mem_le
        linarith
      · show m.capacity.allocated_workers - wrkOf a ≤ m.capacity.total_workers
        have := wrkOf_nonneg a
        have := hInv.wrk_le
        linarith
      · show m.capacity.allocated_cpu - cpuOf a =
          cpuSum (l1 ++ (aid, releasedRecord a now) :: l2)
        rw [cpuSum_append, cpuSum_cons, hsums.1]
        rw [show ((aid, releasedRecord a now).2) = releasedRecord a now from rfl,
          cpuOf_released]
        ring
      · show m.capacity.allocated_memory - memOf a =
          memSum (l1 ++ (aid, releasedRecord a now) :: l2)
        rw [memSum_append, memSum_cons, hsums.2.1]
        rw [show ((aid, releasedRecord a now).2) = releasedRecord a now from rfl,
          memOf_released]
        ring
      · show m.capacity.allocated_workers - wrkOf a =
          wrkSum (l1 ++ (aid, releasedRecord a now) :: l2)
        rw [wrkSum_append, wrkSum_cons, hsums.2.2]
        rw [show ((aid, releasedRecord a now).2) = releasedRecord a now from rfl,
          wrkOf_released]
        ring
      · show ((l1 ++ (aid, releasedRecord a now) :: l2).map Prod.fst).Nodup
        have hsame : (l1 ++ (aid, releasedRecord a now) :: l2).map Prod.fst =
            (l1 ++ (aid, a) :: l2).map Prod.fst := by
          simp
        rw [hsame, ← hdec]
        exact hInv.keys_nodup
      · intro p hp
        show EntryInv m.mcp_server_registry p.2
        rcases List.mem_append.1 hp with hp1 | hp2
        · exact hInv.entries p (by rw [hdec]; exact List.mem_append_left _ hp1)
        · rcases List.mem_cons.1 hp2 with hpe | hp3
          · rw [hpe]
            exact entryInv_released hE now
          · exact hInv.entries p
              (by rw [hdec]; exact List.mem_append_right _ (List.mem_cons_of_mem _ hp3))

/-- Each step of the expiry sweep preserves the invariant. -/
theorem inv_cleanupGo (now : ℤ) (l : List (String × ResourceAllocation)) :
    ∀ m : AllocationManager, Inv m → Inv (cleanupGo now m l).1 := by
  induction l with
  | nil =>
    intro m h
    exact h
  | cons p t ih =>
    intro m h
    rcases p with ⟨aid, a0⟩
    cases hl : lookupA m.allocations aid with
    | some a =>
      by_cases hc : a.is_expired now ∧ a.state = .ACTIVE
      · have heq : (cleanupGo now m ((aid, a0) :: t)).1 =
            (cleanupGo now (release_resources m aid now).1 t).1 := by
          simp [cleanupGo, hl, hc]
        rw [heq]
        exact ih _ (inv_release m h aid now)
      · have heq : (cleanupGo now m ((aid, a0) :: t)).1 =
            (cleanupGo now m t).1 := by
          simp [cleanupGo, hl, hc]
        rw [heq]
        exact ih m h
    | none =>
      have heq : (cleanupGo now m ((aid, a0) :: t)).1 = (cleanupGo now m t).1 := by
        simp [cleanupGo, hl]
      rw [heq]
      exact ih m h

theorem entryInv_mono {reg reg' : List (String × MCPServerSpec)}
    {a : ResourceAllocation}
    (hmono : ∀ n v, lookupA reg n = some v → lookupA reg' n = some v)
    (hE : EntryInv reg a) : EntryInv reg' a :=
  { cpu_nonneg := hE.cpu_nonneg
    mem_nonneg := hE.mem_nonneg
    state_ok := hE.state_ok
    failed_empty := hE.failed_empty
    empty_zero := hE.empty_zero
    specs_reg := fun s hs => hmono _ _ (hE.specs_reg s hs)
    wid_shape := hE.wid_shape }

theorem entries_snoc {reg : List (String × MCPServerSpec)}
    {l : List (String × ResourceAllocation)} {aid : String}
    {rec : ResourceAllocation} (hold : ∀ p ∈ l, EntryInv reg p.2)
    (hnew : EntryInv reg rec) :
    ∀ p ∈ l ++ [(aid, rec)], EntryInv reg p.2 := by
  intro p hp
  rcases List.mem_append.1 hp with hp1 | hp2
  · exact hold p hp1
  · simp at hp2
    rw [hp2]
    exact hnew

theorem provision_length (m : AllocationManager) (w : ℤ) (jid : String) :
    (_provision_workers m w jid).length = w.toNat := by
  simp [_provision_workers]

theorem keys_nodup_snoc {l : List (String × ResourceAllocation)} {aid : String}
    {rec : ResourceAllocation} (h : (l.map Prod.fst).Nodup)
    (hfresh : lookupA l aid = none) :
    ((l ++ [(aid, rec)]).map Prod.fst).Nodup := by
  rw [List.map_append]
  refine List.Nodup.append h (by simp) ?_
  intro x hx hy
  simp at hy
  subst hy
  exact (lookupA_none_iff l x).1 hfresh hx

/-- `request_resources` preserves the invariant when the generated
allocation id is fresh. -/
theorem inv_request (m : AllocationManager) (hInv : Inv m) (aid jid : String)
    (servers : List String) (workers : Option ℤ) (prio : String) (ttl : ℤ)
    (md : List (String × String)) (now : ℤ)
    (hfresh : lookupA m.allocations aid = none) :
    Inv (request_resources m aid jid servers workers prio ttl md now).1 := by
  obtain ⟨⟨rs, hSeq⟩, hreg2, hmono2, hlook2⟩ :=
    startServers_spec servers m hInv.reg hInv.ports
  have hAl : (startServers m servers).2.allocations = m.allocations := by
    rw [hSeq]
  have hWc : (startServers m servers).2.worker_cpu = m.worker_cpu := by
    rw [hSeq]
  have hWm : (startServers m servers).2.worker_memory = m.worker_memory := by
    rw [hSeq]
  have hPorts : (startServers m servers).2.mcp_server_ports =
      m.mcp_server_ports := by
    rw [hSeq]
  have hTc : (startServers m servers).2.capacity.total_cpu =
      m.capacity.total_cpu := by rw [hSeq]
  have hTm : (startServers m servers).2.capacity.total_memory =
      m.capacity.total_memory := by rw [hSeq]
  have hTw : (startServers m servers).2.capacity.total_workers =
      m.capacity.total_workers := by rw [hSeq]
  have hACpu : (startServers m servers).2.capacity.allocated_cpu =
      m.capacity.allocated_cpu := by rw [hSeq]
  have hAMem : (startServers m servers).2.capacity.allocated_memory =
      m.capacity.allocated_memory := by rw [hSeq]
  have hAWrk : (startServers m servers).2.capacity.allocated_workers =
      m.capacity.allocated_workers := by rw [hSeq]
  cases hW : wantsWorkers workers with
  | false =>
    rw [request_succ_eq_noworkers m aid jid servers workers prio ttl md now hW]
    refine { wcpu := hWc.trans hInv.wcpu, wmem := hWm.trans hInv.wmem,
             ports := hPorts.trans hInv.ports,
             tcpu_nonneg := ?_, tmem_nonneg := ?_, twrk_nonneg := ?_,
             cpu_le := ?_, mem_le := ?_, wrk_le := ?_,
             cpu_sum := ?_, mem_sum := ?_, wrk_sum := ?_,
             keys_nodup := ?_, entries := ?_, reg := hreg2 }
    · show (0 : ℚ) ≤ (startServers m servers).2.capacity.total_cpu
      rw [hTc]
      exact hInv.tcpu_nonneg
    · show (0 : ℤ) ≤ (startServers m servers).2.capacity.total_memory
      rw [hTm]
      exact hInv.tmem_nonneg
    · show (0 : ℤ) ≤ (startServers m servers).2.capacity.total_workers
      rw [hTw]
      exact hInv.twrk_nonneg
    · show (startServers m servers).2.capacity.allocated_cpu ≤
        (startServers m servers).2.capacity.total_cpu
      rw [hTc, hACpu]
      exact hInv.cpu_le
    · show (startServers m servers).2.capacity.allocated_memory ≤
        (startServers m servers).2.capacity.total_memory
      rw [hTm, hAMem]
      exact hInv.mem_le
    · show (startServers m servers).2.capacity.allocated_workers ≤
        (startServers m servers).2.capacity.total_workers
      rw [hTw, hAWrk]
      exact hInv.wrk_le
    · show (startServers m servers).2.capacity.allocated_cpu =
        cpuSum (dictSet (startServers m servers).2.allocations aid _)
      rw [hACpu, hAl, dictSet_of_lookupA_none _ hfresh, cpuSum_append,
        hInv.cpu_sum]
      simp [cpuSum, cpuOf, inLedger]
    · show (startServers m servers).2.capacity.allocated_memory =
        memSum (dictSet (startServers m servers).2.allocations aid _)
      rw [hAMem, hAl, dictSet_of_lookupA_none _ hfresh, memSum_append,
        hInv.mem_sum]
      simp [memSum, memOf, inLedger]
    · show (startServers m servers).2.capacity.allocated_workers =
        wrkSum (dictSet (startServers m servers).2.allocations aid _)
      rw [hAWrk, hAl, dictSet_of_lookupA_none _ hfresh, wrkSum_append,
        hInv.wrk_sum]
      simp [wrkSum, wrkOf, inLedger]
    · show (((dictSet (startServers m servers).2.allocations aid _)).map
        Prod.fst).Nodup
      rw [hAl, dictSet_of_lookupA_none _ hfresh]
      exact keys_nodup_snoc hInv.keys_nodup hfresh
    · show ∀ p ∈ dictSet (startServers m servers).2.allocations aid _,
        EntryInv (startServers m servers).2.mcp_server_registry p.2
      rw [hAl, dictSet_of_lookupA_none _ hfresh]
      refine entries_snoc
        (fun p hp => entryInv_mono hmono2 (hInv.entries p hp)) ?_
      refine { cpu_nonneg := le_refl 0, mem_nonneg := le_refl 0,
               state_ok := Or.inl rfl, failed_empty := ?_,
               empty_zero := fun _ => ⟨rfl, rfl⟩,
               specs_reg := ?_, wid_shape := by simp }
      · intro h
        simp at h
      · intro s hs
        exact hlook2 s hs
  | true =>
    obtain ⟨w, hw_eq, hw_pos⟩ : ∃ w, workers = some w ∧ 0 < w := by
      cases workers with
      | none => simp [wantsWorkers] at hW
      | some w => exact ⟨w, rfl, by simpa [wantsWorkers] using hW⟩
    subst hw_eq
    rcases hC : _check_capacity m w with ⟨ok, msg⟩
    cases ok with
    | false =>
      rw [request_fail_eq m aid jid servers w prio ttl md now msg hw_pos hC]
      refine { wcpu := hInv.wcpu, wmem := hInv.wmem, ports := hInv.ports,
               tcpu_nonneg := hInv.tcpu_nonneg, tmem_nonneg := hInv.tmem_nonneg,
               twrk_nonneg := hInv.twrk_nonneg,
               cpu_le := hInv.cpu_le, mem_le := hInv.mem_le,
               wrk_le := hInv.wrk_le,
               cpu_sum := ?_, mem_sum := ?_, wrk_sum := ?_,
               keys_nodup := ?_, entries := ?_, reg := hInv.reg }
      · show m.capacity.allocated_cpu = cpuSum (dictSet m.allocations aid _)
        rw [dictSet_of_lookupA_none _ hfresh, cpuSum_append, hInv.cpu_sum]
        simp [cpuSum, cpuOf, inLedger]
      · show m.capacity.allocated_memory = memSum (dictSet m.allocations aid _)
        rw [dictSet_of_lookupA_none _ hfresh, memSum_append, hInv.mem_sum]
        simp [memSum, memOf, inLedger]
      · show m.capacity.allocated_workers = wrkSum (dictSet m.allocations aid _)
        rw [dictSet_of_lookupA_none _ hfresh, wrkSum_append, hInv.wrk_sum]
        simp [wrkSum, wrkOf, inLedger]
      · show ((dictSet m.allocations aid _).map Prod.fst).Nodup
        rw [dictSet_of_lookupA_none _ hfresh]
        exact keys_nodup_snoc hInv.keys_nodup hfresh
      · show ∀ p ∈ dictSet m.allocations aid _,
          EntryInv m.mcp_server_registry p.2
        rw [dictSet_of_lookupA_none _ hfresh]
        refine entries_snoc hInv.entries ?_
        refine { cpu_nonneg := le_refl 0, mem_nonneg := le_refl 0,
                 state_ok := Or.inr (Or.inr rfl), failed_empty := fun _ => rfl,
                 empty_zero := fun _ => ⟨rfl, rfl⟩,
                 specs_reg := ?_, wid_shape := by simp }
        intro s hs
        simp at hs
    | true =>
      rw [request_succ_eq_workers m aid jid servers w prio ttl md now msg
        hw_pos hC]
      obtain ⟨hbW, hbC, hbM⟩ := check_true_bounds m w (by rw [hC])
      rw [ClusterCapacity.available_workers] at hbW
      rw [ClusterCapacity.available_cpu] at hbC
      rw [ClusterCapacity.available_memory] at hbM
      have hwc1 : (startServers m servers).2.worker_cpu = 1 :=
        hWc.trans hInv.wcpu
      have hwm1 : (startServers m servers).2.worker_memory = 2048 :=
        hWm.trans hInv.wmem
      have hprovlen : (_provision_workers (startServers m servers).2 w jid).length
          = w.toNat := provision_length _ w jid
      refine { wcpu := hwc1, wmem := hwm1,
               ports := hPorts.trans hInv.ports,
               tcpu_nonneg := ?_, tmem_nonneg := ?_, twrk_nonneg := ?_,
               cpu_le := ?_, mem_le := ?_, wrk_le := ?_,
               cpu_sum := ?_, mem_sum := ?_, wrk_sum := ?_,
               keys_nodup := ?_, entries := ?_, reg := hreg2 }
      · show (0 : ℚ) ≤ (startServers m servers).2.capacity.total_cpu
        rw [hTc]
        exact hInv.tcpu_nonneg
      · show (0 : ℤ) ≤ (startServers m servers).2.capacity.total_memory
        rw [hTm]
        exact hInv.tmem_nonneg
      · show (0 : ℤ) ≤ (startServers m servers).2.capacity.total_workers
        rw [hTw]
        exact hInv.twrk_nonneg
      · show (startServers m servers).2.capacity.allocated_cpu +
          w * (startServers m servers).2.worker_cpu ≤
          (startServers m servers).2.capacity.total_cpu
        rw [hTc, hACpu, hwc1, hInv.wcpu.symm]
        linarith
      · show (startServers m servers).2.capacity.allocated_memory +
          w * (startServers m servers).2.worker_memory ≤
          (startServers m servers).2.capacity.total_memory
        rw [hTm, hAMem, hwm1, hInv.wmem.symm]
        linarith
      · show (startServers m servers).2.capacity.allocated_workers + w ≤
          (startServers m servers).2.capacity.total_workers
        rw [hTw, hAWrk]
        linarith
      · show (startServers m servers).2.capacity.allocated_cpu +
          w * (startServers m servers).2.worker_cpu =
          cpuSum (dictSet (startServers m servers).2.allocations aid _)
        rw [hACpu, hAl, dictSet_of_lookupA_none _ hfresh, cpuSum_append,
          hInv.cpu_sum]
        simp [cpuSum, cpuOf, inLedger]
      · show (startServers m servers).2.capacity.allocated_memory +
          w * (startServers m servers).2.worker_memory =
          memSum (dictSet (startServers m servers).2.allocations aid _)
        rw [hAMem, hAl, dictSet_of_lookupA_none _ hfresh, memSum_append,
          hInv.mem_sum]
        simp [memSum, memOf, inLedger]
      · show (startServers m servers).2.capacity.allocated_workers + w =
          wrkSum (dictSet (startServers m servers).2.allocations aid _)
        rw [hAWrk, hAl, dictSet_of_lookupA_none _ hfresh, wrkSum_append,
          hInv.wrk_sum]
        simp [wrkSum, wrkOf, inLedger, hprovlen,
          Int.toNat_of_nonneg (le_of_lt hw_pos)]
      · show (((dictSet (startServers m servers).2.allocations aid _)).map
          Prod.fst).Nodup
        rw [hAl, dictSet_of_lookupA_none _ hfresh]
        exact keys_nodup_snoc hInv.keys_nodup hfresh
      · show ∀ p ∈ dictSet (startServers m servers).2.allocations aid _,
          EntryInv (startServers m servers).2.mcp_server_registry p.2
        rw [hAl, dictSet_of_lookupA_none _ hfresh]
        refine entries_snoc
          (fun p hp => entryInv_mono hmono2 (hInv.entries p hp)) ?_
        refine { cpu_nonneg := ?_, mem_nonneg := ?_,
                 state_ok := Or.inl rfl, failed_empty := ?_,
                 empty_zero := ?_, specs_reg := ?_, wid_shape := ?_ }
        · show (0 : ℚ) ≤ w * (startServers m servers).2.worker_cpu
          rw [hwc1]
          simp
          exact_mod_cast le_of_lt hw_pos
        · show (0 : ℤ) ≤ w * (startServers m servers).2.worker_memory
          rw [hwm1]
          omega
        · intro h
          simp at h
        · intro h
          show (w : ℚ) * (startServers m servers).2.worker_cpu = 0 ∧
            w * (startServers m servers).2.worker_memory = 0
          exfalso
          have := congrArg List.length h
          rw [hprovlen] at this
          simp at this
          omega
        · intro s hs
          exact hlook2 s hs
        · show (_provision_workers (startServers m servers).2 w jid).map
            (fun wk => wk.worker_id) = _
          simp [_provision_workers, List.map_map]

/-- `cleanup_expired_allocations` preserves the invariant. -/
theorem inv_cleanup (m : AllocationManager) (hInv : Inv m) (now : ℤ) :
    Inv (cleanup_expired_allocations m now).1 :=
  inv_cleanupGo now m.allocations m hInv

/-- Every reachable manager state satisfies the invariant. -/
theorem reachable_inv {m : AllocationManager} (h : Reachable m) : Inv m := by
  induction h with
  | init tc tm tw h1 h2 h3 => exact inv_init tc tm tw h1 h2 h3
  | request aid jid servers workers prio ttl md now _ hfresh ih =>
    exact inv_request _ ih aid jid servers workers prio ttl md now hfresh
  | release aid now _ ih => exact inv_release _ ih aid now
  | cleanup now _ ih => exact inv_cleanup _ ih now

/-! ### Characterization of the expiry sweep -/

theorem lookupA_of_mem_nodup {α : Type} {l : List (String × α)}
    (hnd : (l.map Prod.fst).Nodup) {p : String × α} (hp : p ∈ l) :
    lookupA l p.1 = some p.2 := by
  induction l with
  | nil => simp at hp
  | cons q t ih =>
    rcases List.mem_cons.1 hp with hpe | hpt
    · subst hpe
      obtain ⟨k1, v1⟩ := p
      simp [lookupA]
    · have hq : q.1 ≠ p.1 := by
        intro he
        have : p.1 ∈ t.map Prod.fst := List.mem_map_of_mem _ hpt
        rw [← he] at this
        exact (List.nodup_cons.1 (by simpa using hnd)).1 this
      obtain ⟨k1, v1⟩ := q
      simp only [lookupA]
      rw [if_neg hq]
      exact ih (List.nodup_cons.1 (by simpa using hnd)).2 hpt

theorem release_allocations_eq (m : AllocationManager) (aid : String)
    (now : ℤ) (a : ResourceAllocation)
    (hl : lookupA m.allocations aid = some a)
    (h1 : ¬(a.state = .RELEASED ∨ a.state = .RELEASING)) :
    (release_resources m aid now).1.allocations =
      dictSet m.allocations aid (releasedRecord a now) := by
  rw [release_eq m aid now a hl h1]

theorem cleanupGo_spec (now : ℤ) (l : List (String × ResourceAllocation)) :
    ∀ m : AllocationManager,
      (∀ p ∈ l, lookupA m.allocations p.1 = some p.2) →
      (l.map Prod.fst).Nodup →
      (cleanupGo now m l).2 =
        (l.filter (fun p =>
          decide (p.2.is_expired now ∧ p.2.state = .ACTIVE))).map Prod.fst ∧
      (∀ q, q ∉ l.map Prod.fst →
        lookupA (cleanupGo now m l).1.allocations q =
          lookupA m.allocations q) ∧
      (∀ p ∈ l,
        lookupA (cleanupGo now m l).1.allocations p.1 =
          if p.2.is_expired now ∧ p.2.state = .ACTIVE
          then some (releasedRecord p.2 now) else some p.2) := by
  induction l with
  | nil =>
    intro m _ _
    refine ⟨rfl, fun q _ => rfl, fun p hp => absurd hp (by simp)⟩
  | cons p t ih =>
    intro m hsub hnodup
    rcases p with ⟨aid, a⟩
    have hla : lookupA m.allocations aid = some a := hsub _ (List.mem_cons_self _ _)
    have haid_notin : aid ∉ t.map Prod.fst :=
      (List.nodup_cons.1 (by simpa using hnodup)).1
    have hnodup_t : (t.map Prod.fst).Nodup :=
      (List.nodup_cons.1 (by simpa using hnodup)).2
    by_cases hc : a.is_expired now ∧ a.state = .ACTIVE
    · have hnotterm : ¬(a.state = .RELEASED ∨ a.state = .RELEASING) := by
        rw [hc.2]
        simp
      have hm1 : (release_resources m aid now).1.allocations =
          dictSet m.allocations aid (releasedRecord a now) :=
        release_allocations_eq m aid now a hla hnotterm
      have heq1 : (cleanupGo now m ((aid, a) :: t)).1 =
          (cleanupGo now (release_resources m aid now).1 t).1 := by
        simp [cleanupGo, hla, hc]
      have heq2 : (cleanupGo now m ((aid, a) :: t)).2 =
          aid :: (cleanupGo now (release_resources m aid now).1 t).2 := by
        simp [cleanupGo, hla, hc]
      have hsub1 : ∀ p ∈ t,
          lookupA (release_resources m aid now).1.allocations p.1 = some p.2 := by
        intro p hp
        have hne : p.1 ≠ aid := by
          intro he
          rw [← he] at haid_notin
          exact haid_notin (List.mem_map_of_mem _ hp)
        rw [hm1, lookupA_dictSet_ne _ _ hne]
        exact hsub p (List.mem_cons_of_mem _ hp)
      obtain ⟨ih1, ih2, ih3⟩ := ih (release_resources m aid now).1 hsub1 hnodup_t
      refine ⟨?_, ?_, ?_⟩
      · rw [heq2, ih1]
        simp [hc]
      · intro q hq
        simp at hq
        rw [heq1, ih2 q (by simpa using hq.2)]
        rw [hm1, lookupA_dictSet_ne _ _ (fun he => hq.1 he)]
      · intro p hp
        rcases List.mem_cons.1 hp with hpe | hpt
        · subst hpe
          rw [heq1, ih2 aid haid_notin, hm1, lookupA_dictSet_self]
          simp [hc]
        · rw [heq1, ih3 p hpt]
    · have heq1 : (cleanupGo now m ((aid, a) :: t)).1 = (cleanupGo now m t).1 := by
        simp [cleanupGo, hla, hc]
      have heq2 : (cleanupGo now m ((aid, a) :: t)).2 = (cleanupGo now m t).2 := by
        simp [cleanupGo, hla, hc]
      have hsub1 : ∀ p ∈ t, lookupA m.allocations p.1 = some p.2 :=
        fun p hp => hsub p (List.mem_cons_of_mem _ hp)
      obtain ⟨ih1, ih2, ih3⟩ := ih m hsub1 hnodup_t
      refine ⟨?_, ?_, ?_⟩
      · rw [heq2, ih1]
        simp [hc]
      · intro q hq
        simp at hq
        rw [heq1, ih2 q (by simpa using hq.2)]
      · intro p hp
        rcases List.mem_cons.1 hp with hpe | hpt
        · subst hpe
          rw [heq1, ih2 aid haid_notin, hla]
          simp [hc]
        · rw [heq1, ih3 p hpt]

theorem cpuSum_nonneg {reg : List (String × MCPServerSpec)}
    {l : List (String × ResourceAllocation)}
    (hE : ∀ p ∈ l, EntryInv reg p.2) : 0 ≤ cpuSum l := by
  induction l with
  | nil => simp [cpuSum]
  | cons p t ih =>
    rw [cpuSum_cons]
    have h1 := cpuOf_nonneg (hE p (List.mem_cons_self _ _))
    have h2 := ih (fun q hq => hE q (List.mem_cons_of_mem _ hq))
    linarith

theorem memSum_nonneg {reg : List (String × MCPServerSpec)}
    {l : List (String × ResourceAllocation)}
    (hE : ∀ p ∈ l, EntryInv reg p.2) : 0 ≤ memSum l := by
  induction l with
  | nil => simp [memSum]
  | cons p t ih =>
    rw [memSum_cons]
    have h1 := memOf_nonneg (hE p (List.mem_cons_self _ _))
    have h2 := ih (fun q hq => hE q (List.mem_cons_of_mem _ hq))
    linarith

theorem wrkSum_nonneg (l : List (String × ResourceAllocation)) :
    0 ≤ wrkSum l := by
  induction l with
  | nil => simp [wrkSum]
  | cons p t ih =>
    rw [wrkSum_cons]
    have h1 := wrkOf_nonneg p.2
    linarith

/-! ### Concrete fixture states used by the witnesses

Batteries marks `Rat.mul`, `Rat.sub` and `Rat.add` irreducible; the fixture
evaluations unfold them so that `decide` can run the manager on concrete
inputs. -/

set_option maxRecDepth 100000

attribute [local semireducible] Rat.mul Rat.sub Rat.add

/-- A manager with the spec's example capacity (cpu 16, memory 32768 MB,
10 workers). -/
def wM0 : AllocationManager := initManager 16 32768 10

/-- One request of two workers and one MCP server against `wM0`. -/
def wReq1 : AllocationManager × RequestResult :=
  request_resources wM0 "alloc-w1" "job-1" ["fs"] (some 2) "normal" 3600 [] 5

def wM1 : AllocationManager := wReq1.1

theorem wM0_reachable : Reachable wM0 :=
  Reachable.init 16 32768 10 (by norm_num) (by norm_num) (by norm_num)

theorem wM1_reachable : Reachable wM1 :=
  Reachable.request "alloc-w1" "job-1" ["fs"] (some 2) "normal" 3600 [] 5
    wM0_reachable rfl

/-- The allocation record stored in `wM1` under id `alloc-w1`. -/
def wA1 : ResourceAllocation :=
  { allocation_id := "alloc-w1"
    job_id := "job-1"
    state := .ACTIVE
    priority := .NORMAL
    mcp_servers := ["fs"]
    workers_requested := some 2
    mcp_server_specs := [⟨"fs", some "http://localhost:9000", "running", some 9000⟩]
    workers_allocated :=
      [⟨"worker-job-1-000", "cortex-worker", 1, 2048, "active", some "http://localhost:8000"⟩,
       ⟨"worker-job-1-001", "cortex-worker", 1, 2048, "active", some "http://localhost:8001"⟩]
    cpu_allocated := 2
    memory_allocated := 4096
    created_at := 5
    activated_at := some 5
    released_at := none
    ttl_seconds := 3600
    metadata := [] }

/-- An admission-failure request (11 workers against 10 slots). -/
def wMF : AllocationManager :=
  (request_resources wM0 "alloc-f1" "job-f" [] (some 11) "normal" 3600 [] 0).1

theorem wMF_reachable : Reachable wMF :=
  Reachable.request "alloc-f1" "job-f" [] (some 11) "normal" 3600 [] 0
    wM0_reachable rfl

/-- A zero-worker allocation with a 10-second TTL, created at time 0. -/
def wME : AllocationManager :=
  (request_resources wM0 "alloc-e1" "job-e" [] none "normal" 10 [] 0).1

theorem wME_reachable : Reachable wME :=
  Reachable.request "alloc-e1" "job-e" [] none "normal" 10 [] 0
    wM0_reachable rfl

/-! ### The claims -/

/-- C1: for every reachable state of the manager, each `allocated_*` counter
sits between 0 and the corresponding `total_*`, and equals the sum of the
committed cpu/memory/worker quantities over the allocations currently in
Active or Releasing state. -/
theorem spec_C1 (m : AllocationManager) (h : Reachable m) :
    (0 ≤ m.capacity.allocated_cpu ∧
      m.capacity.allocated_cpu ≤ m.capacity.total_cpu) ∧
    (0 ≤ m.capacity.allocated_memory ∧
      m.capacity.allocated_memory ≤ m.capacity.total_memory) ∧
    (0 ≤ m.capacity.allocated_workers ∧
      m.capacity.allocated_workers ≤ m.capacity.total_workers) ∧
    m.capacity.allocated_cpu = cpuSum m.allocations ∧
    m.capacity.allocated_memory = memSum m.allocations ∧
    m.capacity.allocated_workers = wrkSum m.allocations := by
  have hInv := reachable_inv h
  refine ⟨⟨?_, hInv.cpu_le⟩, ⟨?_, hInv.mem_le⟩, ⟨?_, hInv.wrk_le⟩,
    hInv.cpu_sum, hInv.mem_sum, hInv.wrk_sum⟩
  · rw [hInv.cpu_sum]
    exact cpuSum_nonneg hInv.entries
  · rw [hInv.mem_sum]
    exact memSum_nonneg hInv.entries
  · rw [hInv.wrk_sum]
    exact wrkSum_nonneg m.allocations

/-- Witness for C1 at a concrete reachable state holding one active
two-worker allocation. -/
theorem spec_C1_witness :
    Reachable wM1 ∧
    ((0 ≤ wM1.capacity.allocated_cpu ∧
        wM1.capacity.allocated_cpu ≤ wM1.capacity.total_cpu) ∧
      (0 ≤ wM1.capacity.allocated_memory ∧
        wM1.capacity.allocated_memory ≤ wM1.capacity.total_memory) ∧
      (0 ≤ wM1.capacity.allocated_workers ∧
        wM1.capacity.allocated_workers ≤ wM1.capacity.total_workers) ∧
      wM1.capacity.allocated_cpu = cpuSum wM1.allocations ∧
      wM1.capacity.allocated_memory = memSum wM1.allocations ∧
      wM1.capacity.allocated_workers = wrkSum wM1.allocations) :=
  ⟨wM1_reachable, spec_C1 wM1 wM1_reachable⟩

/-- C5: the admission check fails exactly when the requested workers exceed
available workers, or the implied cpu exceeds available cpu, or the implied
memory exceeds available memory; a failure always carries a reason string
and a success carries none.  Purity holds by construction: the embedding
types `_check_capacity` as a function of the state returning only the
`(ok, reason)` pair, so no number of calls can mutate manager state. -/
theorem spec_C5 (m : AllocationManager) (w : ℤ) :
    ((_check_capacity m w).1 = false ↔
      (w > m.capacity.available_workers ∨
       (w : ℚ) * m.worker_cpu > m.capacity.available_cpu ∨
       w * m.worker_memory > m.capacity.available_memory)) ∧
    ((_check_capacity m w).1 = false → ∃ s, (_check_capacity m w).2 = some s) ∧
    ((_check_capacity m w).1 = true → (_check_capacity m w).2 = none) :=
  ⟨check_false_iff m w, check_false_reason m w, check_true_none m w⟩

/-- Witness for C5: requesting 11 workers against 10 total fails with a
reason. -/
theorem spec_C5_witness :
    (_check_capacity wM0 11).1 = false ∧
    (11 > wM0.capacity.available_workers ∨
      (11 : ℚ) * wM0.worker_cpu > wM0.capacity.available_cpu ∨
      11 * wM0.worker_memory > wM0.capacity.available_memory) ∧
    (∃ s, (_check_capacity wM0 11).2 = some s) :=
  ⟨by decide, (spec_C5 wM0 11).1.mp (by decide),
    (spec_C5 wM0 11).2.1 (by decide)⟩

/-- C6: `is_expired` is false for the terminal states Released and Failed;
in every other state it is true exactly when `now` is strictly after
`(activated_at or created_at) + ttl_seconds`. -/
theorem spec_C6 (a : ResourceAllocation) (now : ℤ) :
    ((a.state = .RELEASED ∨ a.state = .FAILED) → a.is_expired now = false) ∧
    (a.state ≠ .RELEASED → a.state ≠ .FAILED →
      (a.is_expired now = true ↔
        now > a.activated_at.getD a.created_at + a.ttl_seconds)) := by
  constructor
  · intro h
    simp [ResourceAllocation.is_expired, h]
  · intro h1 h2
    simp [ResourceAllocation.is_expired, h1, h2]

/-- Witness for C6 at a concrete active record past its TTL. -/
theorem spec_C6_witness :
    wA1.state ≠ .RELEASED ∧ wA1.state ≠ .FAILED ∧
    (wA1.is_expired 4000 = true ↔
      (4000 : ℤ) > wA1.activated_at.getD wA1.created_at + wA1.ttl_seconds) :=
  ⟨by decide, by decide, (spec_C6 wA1 4000).2 (by decide) (by decide)⟩

/-- C10: after every public operation, every stored allocation record is in
state Active, Released, or Failed — never Pending or Releasing. -/
theorem spec_C10 (m : AllocationManager) (h : Reachable m) :
    ∀ p ∈ m.allocations,
      p.2.state = .ACTIVE ∨ p.2.state = .RELEASED ∨ p.2.state = .FAILED :=
  fun p hp => ((reachable_inv h).entries p hp).state_ok

/-- Witness for C10 at a concrete reachable state. -/
theorem spec_C10_witness :
    Reachable wM1 ∧
    (∀ p ∈ wM1.allocations,
      p.2.state = .ACTIVE ∨ p.2.state = .RELEASED ∨ p.2.state = .FAILED) :=
  ⟨wM1_reachable, spec_C10 wM1 wM1_reachable⟩

/-- C2: a request whose worker count exceeds available capacity (workers,
or the implied cpu or memory) returns status `failed` with the reason,
stores the allocation as Failed with the reason under the `error` key of its
metadata, and leaves all four Ledger counters unchanged. -/
theorem spec_C2 (m : AllocationManager) (h : Reachable m) (aid jid : String)
    (servers : List String) (w : ℤ) (prio : String) (ttl : ℤ)
    (md : List (String × String)) (now : ℤ)
    (hcond : w > m.capacity.available_workers ∨
      (w : ℚ) * m.worker_cpu > m.capacity.available_cpu ∨
      w * m.worker_memory > m.capacity.available_memory) :
    (request_resources m aid jid servers (some w) prio ttl md now).2.status =
      "failed" ∧
    (∃ msg,
      (request_resources m aid jid servers (some w) prio ttl md now).2.error =
        some msg ∧
      ∃ a, lookupA (request_resources m aid jid servers (some w) prio ttl md
          now).1.allocations aid = some a ∧
        a.state = .FAILED ∧ lookupA a.metadata "error" = some msg) ∧
    (request_resources m aid jid servers (some w) prio ttl md
      now).1.capacity.allocated_cpu = m.capacity.allocated_cpu ∧
    (request_resources m aid jid servers (some w) prio ttl md
      now).1.capacity.allocated_memory = m.capacity.allocated_memory ∧
    (request_resources m aid jid servers (some w) prio ttl md
      now).1.capacity.allocated_workers = m.capacity.allocated_workers ∧
    (request_resources m aid jid servers (some w) prio ttl md
      now).1.capacity.active_allocations = m.capacity.active_allocations := by
  have hInv := reachable_inv h
  have hw : 0 < w := by
    rcases hcond with hc | hc | hc
    · have h0 : 0 ≤ m.capacity.available_workers := by
        rw [ClusterCapacity.available_workers]
        have := hInv.wrk_le
        linarith
      linarith
    · rw [hInv.wcpu, mul_one] at hc
      have h0 : 0 ≤ m.capacity.available_cpu := by
        rw [ClusterCapacity.available_cpu]
        have := hInv.cpu_le
        linarith
      have hq : (0 : ℚ) < (w : ℚ) := lt_of_le_of_lt h0 hc
      exact_mod_cast hq
    · rw [hInv.wmem] at hc
      have h0 : 0 ≤ m.capacity.available_memory := by
        rw [ClusterCapacity.available_memory]
        have := hInv.mem_le
        linarith
      nlinarith
  have hfalse : (_check_capacity m w).1 = false := (check_false_iff m w).mpr hcond
  rcases hC : _check_capacity m w with ⟨ok, msgO⟩
  have hok : ok = false := by
    rw [hC] at hfalse
    exact hfalse
  subst hok
  obtain ⟨msg, hmsg⟩ : ∃ s, msgO = some s := by
    have hr := check_false_reason m w hfalse
    rw [hC] at hr
    simpa using hr
  subst hmsg
  rw [request_fail_eq m aid jid servers w prio ttl md now (some msg) hw hC]
  refine ⟨rfl, ⟨msg, rfl, ?_⟩, rfl, rfl, rfl, rfl⟩
  exact ⟨_, lookupA_dictSet_self _ _ _, rfl, lookupA_dictSet_self md "error" msg⟩

/-- Witness for C2: requesting 11 workers against an empty 10-slot manager. -/
theorem spec_C2_witness :
    Reachable wM0 ∧
    ((11 : ℤ) > wM0.capacity.available_workers ∨
      (11 : ℚ) * wM0.worker_cpu > wM0.capacity.available_cpu ∨
      (11 : ℤ) * wM0.worker_memory > wM0.capacity.available_memory) ∧
    ((request_resources wM0 "alloc-f1" "job-f" [] (some 11) "normal" 3600 []
      0).2.status = "failed" ∧
    (∃ msg,
      (request_resources wM0 "alloc-f1" "job-f" [] (some 11) "normal" 3600 []
        0).2.error = some msg ∧
      ∃ a, lookupA (request_resources wM0 "alloc-f1" "job-f" [] (some 11)
          "normal" 3600 [] 0).1.allocations "alloc-f1" = some a ∧
        a.state = .FAILED ∧ lookupA a.metadata "error" = some msg) ∧
    (request_resources wM0 "alloc-f1" "job-f" [] (some 11) "normal" 3600 []
      0).1.capacity.allocated_cpu = wM0.capacity.allocated_cpu ∧
    (request_resources wM0 "alloc-f1" "job-f" [] (some 11) "normal" 3600 []
      0).1.capacity.allocated_memory = wM0.capacity.allocated_memory ∧
    (request_resources wM0 "alloc-f1" "job-f" [] (some 11) "normal" 3600 []
      0).1.capacity.allocated_workers = wM0.capacity.allocated_workers ∧
    (request_resources wM0 "alloc-f1" "job-f" [] (some 11) "normal" 3600 []
      0).1.capacity.active_allocations = wM0.capacity.active_allocations) :=
  ⟨wM0_reachable, Or.inl (by decide),
    spec_C2 wM0 wM0_reachable "alloc-f1" "job-f" [] 11 "normal" 3600 [] 0
      (Or.inl (by decide))⟩

/-- C3: releasing an Active allocation holding workers yields `released`,
releasing it again yields `already_released` (not an error), and the
Ledger's allocated counters are decremented exactly once across the two
calls. -/
theorem spec_C3 (m : AllocationManager) (aid : String) (a : ResourceAllocation)
    (now1 now2 : ℤ) (hl : lookupA m.allocations aid = some a)
    (hact : a.state = .ACTIVE) (hwrk : 0 < a.workers_allocated.length) :
    (release_resources m aid now1).2.status = "released" ∧
    (release_resources (release_resources m aid now1).1 aid now2).2.status =
      "already_released" ∧
    (release_resources m aid now1).1.capacity.allocated_workers =
      m.capacity.allocated_workers - a.workers_allocated.length ∧
    (release_resources m aid now1).1.capacity.allocated_cpu =
      m.capacity.allocated_cpu - a.cpu_allocated ∧
    (release_resources m aid now1).1.capacity.allocated_memory =
      m.capacity.allocated_memory - a.memory_allocated ∧
    (release_resources (release_resources m aid now1).1 aid now2).1.capacity =
      (release_resources m aid now1).1.capacity := by
  have h1 : ¬(a.state = .RELEASED ∨ a.state = .RELEASING) := by
    rw [hact]
    simp
  have hr1 := release_eq m aid now1 a hl h1
  have hl2 : lookupA (release_resources m aid now1).1.allocations aid =
      some (releasedRecord a now1) := by
    rw [hr1]
    exact lookupA_dictSet_self _ _ _
  have hr2 := release_already_eq (release_resources m aid now1).1 aid now2
    (releasedRecord a now1) hl2 (Or.inl rfl)
  rw [hr2, hr1]
  refine ⟨rfl, rfl, ?_, ?_, ?_, rfl⟩
  · show (releaseCapacity m.capacity a).allocated_workers = _
    simp [releaseCapacity, hwrk]
  · show (releaseCapacity m.capacity a).allocated_cpu = _
    simp [releaseCapacity, hwrk]
  · show (releaseCapacity m.capacity a).allocated_memory = _
    simp [releaseCapacity, hwrk]

/-- Witness for C3 at the concrete two-worker allocation of `wM1`. -/
theorem spec_C3_witness :
    lookupA wM1.allocations "alloc-w1" = some wA1 ∧
    wA1.state = .ACTIVE ∧ 0 < wA1.workers_allocated.length ∧
    ((release_resources wM1 "alloc-w1" 100).2.status = "released" ∧
    (release_resources (release_resources wM1 "alloc-w1" 100).1 "alloc-w1"
      200).2.status = "already_released" ∧
    (release_resources wM1 "alloc-w1" 100).1.capacity.allocated_workers =
      wM1.capacity.allocated_workers - wA1.workers_allocated.length ∧
    (release_resources wM1 "alloc-w1" 100).1.capacity.allocated_cpu =
      wM1.capacity.allocated_cpu - wA1.cpu_allocated ∧
    (release_resources wM1 "alloc-w1" 100).1.capacity.allocated_memory =
      wM1.capacity.allocated_memory - wA1.memory_allocated ∧
    (release_resources (release_resources wM1 "alloc-w1" 100).1 "alloc-w1"
      200).1.capacity = (release_resources wM1 "alloc-w1" 100).1.capacity) :=
  ⟨by decide, by decide, by decide,
    spec_C3 wM1 "alloc-w1" wA1 100 200 (by decide) (by decide) (by decide)⟩

theorem start_mcp_allocations (m : AllocationManager) (n : String) :
    (_start_mcp_server m n).2.allocations = m.allocations := by
  unfold _start_mcp_server _start_mcp_server_new _allocate_port
  cases hl : lookupA m.mcp_server_registry n with
  | some spec =>
    by_cases hs : spec.status = "running"
    · simp [hs]
    · by_cases hmem : n ∈ m.capacity.running_mcp_servers <;> simp [hs, hmem]
  | none =>
    by_cases hmem : n ∈ m.capacity.running_mcp_servers <;> simp [hmem]

theorem startServers_allocations (names : List String) :
    ∀ m : AllocationManager,
      (startServers m names).2.allocations = m.allocations := by
  induction names with
  | nil =>
    intro m
    rfl
  | cons n t ih =>
    intro m
    rw [startServers_cons]
    show (startServers (_start_mcp_server m n).2 t).2.allocations = _
    rw [ih, start_mcp_allocations]

/-- A request never touches the record stored under any other id. -/
theorem request_lookup_other (m : AllocationManager) (aid jid : String)
    (servers : List String) (workers : Option ℤ) (prio : String) (ttl : ℤ)
    (md : List (String × String)) (now : ℤ) (q : String) (hq : q ≠ aid) :
    lookupA (request_resources m aid jid servers workers prio ttl md
      now).1.allocations q = lookupA m.allocations q := by
  cases hW : wantsWorkers workers with
  | false =>
    rw [request_succ_eq_noworkers m aid jid servers workers prio ttl md now hW]
    show lookupA (dictSet (startServers m servers).2.allocations aid _) q = _
    rw [lookupA_dictSet_ne _ _ hq, startServers_allocations]
  | true =>
    obtain ⟨w, hw_eq, hw_pos⟩ : ∃ w, workers = some w ∧ 0 < w := by
      cases workers with
      | none => simp [wantsWorkers] at hW
      | some w => exact ⟨w, rfl, by simpa [wantsWorkers] using hW⟩
    subst hw_eq
    rcases hC : _check_capacity m w with ⟨ok, msg⟩
    cases ok with
    | false =>
      rw [request_fail_eq m aid jid servers w prio ttl md now msg hw_pos hC]
      show lookupA (dictSet m.allocations aid _) q = _
      rw [lookupA_dictSet_ne _ _ hq]
    | true =>
      rw [request_succ_eq_workers m aid jid servers w prio ttl md now msg
        hw_pos hC]
      show lookupA (dictSet (startServers m servers).2.allocations aid _) q = _
      rw [lookupA_dictSet_ne _ _ hq, startServers_allocations]

/-- C7: the expiry sweep returns exactly the ids of the records that were
simultaneously Active and expired at sweep time, releases exactly those
(each receives the release transform), and leaves every other record
untouched. -/
theorem spec_C7 (m : AllocationManager) (h : Reachable m) (now : ℤ) :
    (cleanup_expired_allocations m now).2 =
      (m.allocations.filter (fun p =>
        decide (p.2.is_expired now ∧ p.2.state = .ACTIVE))).map Prod.fst ∧
    (∀ p ∈ m.allocations, ¬(p.2.is_expired now ∧ p.2.state = .ACTIVE) →
      lookupA (cleanup_expired_allocations m now).1.allocations p.1 =
        some p.2) ∧
    (∀ p ∈ m.allocations, (p.2.is_expired now ∧ p.2.state = .ACTIVE) →
      lookupA (cleanup_expired_allocations m now).1.allocations p.1 =
        some (releasedRecord p.2 now)) := by
  have hInv := reachable_inv h
  have hsub : ∀ p ∈ m.allocations, lookupA m.allocations p.1 = some p.2 :=
    fun p hp => lookupA_of_mem_nodup hInv.keys_nodup hp
  obtain ⟨h1, _, h3⟩ := cleanupGo_spec now m.allocations m hsub hInv.keys_nodup
  refine ⟨h1, ?_, ?_⟩
  · intro p hp hnc
    have hz := h3 p hp
    rw [if_neg hnc] at hz
    exact hz
  · intro p hp hc
    have hz := h3 p hp
    rw [if_pos hc] at hz
    exact hz

/-- Witness for C7: a 10-second-TTL allocation created at time 0 is swept at
time 500. -/
theorem spec_C7_witness :
    Reachable wME ∧
    (cleanup_expired_allocations wME 500).2 = ["alloc-e1"] ∧
    ((cleanup_expired_allocations wME 500).2 =
      (wME.allocations.filter (fun p =>
        decide (p.2.is_expired 500 ∧ p.2.state = .ACTIVE))).map Prod.fst ∧
    (∀ p ∈ wME.allocations, ¬(p.2.is_expired 500 ∧ p.2.state = .ACTIVE) →
      lookupA (cleanup_expired_allocations wME 500).1.allocations p.1 =
        some p.2) ∧
    (∀ p ∈ wME.allocations, (p.2.is_expired 500 ∧ p.2.state = .ACTIVE) →
      lookupA (cleanup_expired_allocations wME 500).1.allocations p.1 =
        some (releasedRecord p.2 500))) :=
  ⟨wME_reachable, by decide, spec_C7 wME wME_reachable 500⟩

/-- Counterexample to C4: a record stored as Failed (admission failure) is
not terminal — `release_resources` on its id returns `released` and changes
its state to Released. -/
theorem spec_C4_counterexample :
    Reachable wMF ∧
    ((lookupA wMF.allocations "alloc-f1").map (fun a => a.state)) =
      some .FAILED ∧
    (release_resources wMF "alloc-f1" 7).2.status = "released" ∧
    ((lookupA (release_resources wMF "alloc-f1" 7).1.allocations
      "alloc-f1").map (fun a => a.state)) = some .RELEASED :=
  ⟨wMF_reachable, by decide, by decide, by decide⟩

/-- C4 as amended: a Failed record is left untouched by
`request_resources` (fresh id) and by `cleanup_expired_allocations`, but
`release_resources` on its id transitions it through Releasing to Released
with status `released`, leaving the allocated counters unchanged — so
Released is also reachable via Pending → Failed → Releasing → Released. -/
theorem spec_C4_amended (m : AllocationManager) (h : Reachable m)
    (aid : String) (a : ResourceAllocation)
    (hl : lookupA m.allocations aid = some a) (hf : a.state = .FAILED)
    (now now2 now3 : ℤ) (aid2 jid : String) (servers : List String)
    (workers : Option ℤ) (prio : String) (ttl : ℤ)
    (md : List (String × String))
    (hfresh : lookupA m.allocations aid2 = none) :
    (release_resources m aid now).2.status = "released" ∧
    (lookupA (release_resources m aid now).1.allocations aid).map
      (fun x => x.state) = some .RELEASED ∧
    (release_resources m aid now).1.capacity.allocated_cpu =
      m.capacity.allocated_cpu ∧
    (release_resources m aid now).1.capacity.allocated_memory =
      m.capacity.allocated_memory ∧
    (release_resources m aid now).1.capacity.allocated_workers =
      m.capacity.allocated_workers ∧
    lookupA (cleanup_expired_allocations m now2).1.allocations aid = some a ∧
    lookupA (request_resources m aid2 jid servers workers prio ttl md
      now3).1.allocations aid = some a := by
  have hInv := reachable_inv h
  have hE := hInv.entries (aid, a) (lookupA_some_mem hl)
  have h1 : ¬(a.state = .RELEASED ∨ a.state = .RELEASING) := by
    rw [hf]
    simp
  have hled : ¬inLedger a := by
    unfold inLedger
    rw [hf]
    simp
  have hr := release_eq m aid now a hl h1
  have hcontrib := release_contrib m.capacity hE h1
  refine ⟨by rw [hr], ?_, ?_, ?_, ?_, ?_, ?_⟩
  · rw [hr]
    show (lookupA (dictSet m.allocations aid (releasedRecord a now)) aid).map
      (fun x => x.state) = some .RELEASED
    rw [lookupA_dictSet_self]
    rfl
  · rw [hr]
    show (releaseCapacity m.capacity a).allocated_cpu = _
    rw [hcontrib]
    simp [cpuOf, hled]
  · rw [hr]
    show (releaseCapacity m.capacity a).allocated_memory = _
    rw [hcontrib]
    simp [memOf, hled]
  · rw [hr]
    show (releaseCapacity m.capacity a).allocated_workers = _
    rw [hcontrib]
    simp [wrkOf, hled]
  · have hsub : ∀ p ∈ m.allocations, lookupA m.allocations p.1 = some p.2 :=
      fun p hp => lookupA_of_mem_nodup hInv.keys_nodup hp
    obtain ⟨_, _, h3⟩ := cleanupGo_spec now2 m.allocations m hsub hInv.keys_nodup
    have hz := h3 (aid, a) (lookupA_some_mem hl)
    rw [if_neg (by rw [hf]; simp)] at hz
    exact hz
  · have hq : aid ≠ aid2 := by
      intro he
      rw [he, hfresh] at hl
      cases hl
    rw [request_lookup_other m aid2 jid servers workers prio ttl md now3 aid hq]
    exact hl

/-- The Failed record stored by the admission-failure request of `wMF`. -/
def wAF : ResourceAllocation :=
  { allocation_id := "alloc-f1"
    job_id := "job-f"
    state := .FAILED
    priority := .NORMAL
    mcp_servers := []
    workers_requested := some 11
    mcp_server_specs := []
    workers_allocated := []
    cpu_allocated := 0
    memory_allocated := 0
    created_at := 0
    activated_at := none
    released_at := none
    ttl_seconds := 3600
    metadata := [("error", "Insufficient workers: requested 11, available 10")] }

/-- Witness for the amended C4 at the concrete Failed allocation of `wMF`. -/
theorem spec_C4_witness :
    Reachable wMF ∧
    lookupA wMF.allocations "alloc-f1" = some wAF ∧ wAF.state = .FAILED ∧
    lookupA wMF.allocations "alloc-x" = none ∧
    ((release_resources wMF "alloc-f1" 7).2.status = "released" ∧
    (lookupA (release_resources wMF "alloc-f1" 7).1.allocations "alloc-f1").map
      (fun x => x.state) = some .RELEASED ∧
    (release_resources wMF "alloc-f1" 7).1.capacity.allocated_cpu =
      wMF.capacity.allocated_cpu ∧
    (release_resources wMF "alloc-f1" 7).1.capacity.allocated_memory =
      wMF.capacity.allocated_memory ∧
    (release_resources wMF "alloc-f1" 7).1.capacity.allocated_workers =
      wMF.capacity.allocated_workers ∧
    lookupA (cleanup_expired_allocations wMF 8).1.allocations "alloc-f1" =
      some wAF ∧
    lookupA (request_resources wMF "alloc-x" "j2" [] none "normal" 60 []
      9).1.allocations "alloc-f1" = some wAF) :=
  ⟨wMF_reachable, by decide, by decide, by decide,
    spec_C4_amended wMF wMF_reachable "alloc-f1" wAF (by decide) (by decide)
      7 8 9 "alloc-x" "j2" [] none "normal" 60 [] (by decide)⟩

theorem localhost_inj {p1 p2 : ℕ}
    (h : "http://localhost:" ++ toString p1 =
      "http://localhost:" ++ toString p2) : p1 = p2 := by
  have hd := congrArg String.data h
  rw [String.data_append, String.data_append] at hd
  exact repr_inj p1 p2 (string_ext (List.append_cancel_left hd))

/-- C8 as amended: allocations requesting the same service name receive
identical endpoints; allocations requesting distinct names receive distinct
endpoints as long as at most 100 distinct services (the port-pool size) have
been registered — beyond that the wrapping port allocator reuses endpoints. -/
theorem spec_C8_amended (m : AllocationManager) (h : Reachable m) :
    ∀ id1 a1 id2 a2, (id1, a1) ∈ m.allocations → (id2, a2) ∈ m.allocations →
      ∀ s1 ∈ a1.mcp_server_specs, ∀ s2 ∈ a2.mcp_server_specs,
        (s1.server_name = s2.server_name → s1.endpoint = s2.endpoint) ∧
        (s1.server_name ≠ s2.server_name →
          m.mcp_server_registry.length ≤ 100 → s1.endpoint ≠ s2.endpoint) := by
  intro id1 a1 id2 a2 hm1 hm2 s1 hs1 s2 hs2
  have hInv := reachable_inv h
  have hL1 := (hInv.entries _ hm1).specs_reg s1 hs1
  have hL2 := (hInv.entries _ hm2).specs_reg s2 hs2
  constructor
  · intro hname
    rw [hname] at hL1
    have hss : s1 = s2 := Option.some.inj (hL1.symm.trans hL2)
    rw [hss]
  · intro hname hlen
    obtain ⟨i1, hi1, hg1⟩ := lookupA_get hL1
    obtain ⟨i2, hi2, hg2⟩ := lookupA_get hL2
    have hE1 := hInv.reg.entry i1 hi1
    have hE2 := hInv.reg.entry i2 hi2
    rw [hg1] at hE1
    rw [hg2] at hE2
    have hne_idx : i1 ≠ i2 := by
      intro he
      subst he
      rw [hg1] at hg2
      exact hname (congrArg Prod.fst hg2)
    intro hend
    have hE1e := hE1.2.2.2
    have hE2e := hE2.2.2.2
    rw [hend] at hE1e
    have hs := Option.some.inj (hE1e.symm.trans hE2e)
    have hp := localhost_inj hs
    have e1 : i1 % 100 = i1 := Nat.mod_eq_of_lt (lt_of_lt_of_le hi1 hlen)
    have e2 : i2 % 100 = i2 := Nat.mod_eq_of_lt (lt_of_lt_of_le hi2 hlen)
    omega

/-- Three zero-worker requests: services `fs`, `gh`, then `fs` again. -/
def wS : AllocationManager :=
  (request_resources
    (request_resources
      (request_resources wM0 "alloc-s1" "js" ["fs"] none "normal" 3600 [] 0).1
      "alloc-s2" "js" ["gh"] none "normal" 3600 [] 0).1
    "alloc-s3" "js" ["fs"] none "normal" 3600 [] 0).1

theorem wS_reachable : Reachable wS :=
  Reachable.request "alloc-s3" "js" ["fs"] none "normal" 3600 [] 0
    (Reachable.request "alloc-s2" "js" ["gh"] none "normal" 3600 [] 0
      (Reachable.request "alloc-s1" "js" ["fs"] none "normal" 3600 [] 0
        wM0_reachable rfl)
      (by decide))
    (by decide)

/-- Witness for the amended C8: in `wS`, the two `fs` allocations share the
endpoint `http://localhost:9000` while the `gh` allocation got `9001`. -/
theorem spec_C8_witness :
    Reachable wS ∧
    ((lookupA wS.allocations "alloc-s1").map
      (fun a => a.mcp_server_specs.map (fun s => (s.server_name, s.endpoint)))) =
      some [("fs", some "http://localhost:9000")] ∧
    ((lookupA wS.allocations "alloc-s2").map
      (fun a => a.mcp_server_specs.map (fun s => (s.server_name, s.endpoint)))) =
      some [("gh", some "http://localhost:9001")] ∧
    ((lookupA wS.allocations "alloc-s3").map
      (fun a => a.mcp_server_specs.map (fun s => (s.server_name, s.endpoint)))) =
      some [("fs", some "http://localhost:9000")] ∧
    (∀ id1 a1 id2 a2, (id1, a1) ∈ wS.allocations → (id2, a2) ∈ wS.allocations →
      ∀ s1 ∈ a1.mcp_server_specs, ∀ s2 ∈ a2.mcp_server_specs,
        (s1.server_name = s2.server_name → s1.endpoint = s2.endpoint) ∧
        (s1.server_name ≠ s2.server_name →
          wS.mcp_server_registry.length ≤ 100 → s1.endpoint ≠ s2.endpoint)) :=
  ⟨wS_reachable, by decide, by decide, by decide,
    spec_C8_amended wS wS_reachable⟩

theorem append_natToString_inj (p : String) {k1 k2 : ℕ}
    (h : p ++ toString k1 = p ++ toString k2) : k1 = k2 := by
  have hd := congrArg String.data h
  rw [String.data_append, String.data_append] at hd
  exact repr_inj k1 k2 (string_ext (List.append_cancel_left hd))

/-- One wrap-scenario step: a zero-worker request for the fresh service
`s<k>` under the fresh allocation id `a<k>`. -/
def wrapStep (m : AllocationManager) (k : ℕ) : AllocationManager :=
  (request_resources m ("a" ++ toString k) "j" ["s" ++ toString k] none
    "normal" 3600 [] 0).1

/-- The manager after `n` wrap-scenario requests. -/
def wrapFold (n : ℕ) : AllocationManager := (List.range n).foldl wrapStep wM0

theorem wrapFold_spec (n : ℕ) :
    Reachable (wrapFold n) ∧
    (wrapFold n).allocations.map Prod.fst =
      (List.range n).map (fun k => "a" ++ toString k) := by
  induction n with
  | zero => exact ⟨wM0_reachable, rfl⟩
  | succ n ih =>
    have hstep : wrapFold (n + 1) = wrapStep (wrapFold n) n := by
      unfold wrapFold
      rw [List.range_succ, List.foldl_append]
      rfl
    have hfresh : lookupA (wrapFold n).allocations ("a" ++ toString n) = none := by
      rw [lookupA_none_iff, ih.2]
      intro hmem
      obtain ⟨k, hk, he⟩ := List.mem_map.1 hmem
      have hkn := append_natToString_inj "a" he
      simp at hk
      omega
    constructor
    · rw [hstep]
      exact Reachable.request ("a" ++ toString n) "j" ["s" ++ toString n] none
        "normal" 3600 [] 0 ih.1 hfresh
    · rw [hstep]
      show (request_resources (wrapFold n) ("a" ++ toString n) "j"
        ["s" ++ toString n] none "normal" 3600 [] 0).1.allocations.map
          Prod.fst = _
      rw [request_succ_eq_noworkers (wrapFold n) ("a" ++ toString n) "j"
        ["s" ++ toString n] none "normal" 3600 [] 0 rfl]
      show (dictSet (startServers (wrapFold n) ["s" ++ toString n]).2.allocations
        ("a" ++ toString n) _).map Prod.fst = _
      rw [startServers_allocations, dictSet_of_lookupA_none _ hfresh,
        List.map_append, ih.2, List.range_succ, List.map_append]
      rfl

/-- The manager after 101 requests, each for a fresh single service: the
port pool (size 100) has wrapped. -/
def wrapState : AllocationManager := wrapFold 101

theorem wrapState_reachable : Reachable wrapState := (wrapFold_spec 101).1

/-- Counterexample to C8: after 101 allocations with pairwise-distinct
service names, the allocations for `s0` and `s100` — two distinct names —
received the identical endpoint `http://localhost:9000`, because the port
allocator wraps modulo the pool size of 100. -/
theorem spec_C8_counterexample :
    Reachable wrapState ∧
    (("s0" : String) ≠ "s100" ∧
      ((lookupA wrapState.allocations "a0").map (fun a => a.mcp_servers)) =
        some ["s0"] ∧
      ((lookupA wrapState.allocations "a100").map (fun a => a.mcp_servers)) =
        some ["s100"] ∧
      ((lookupA wrapState.allocations "a0").map
        (fun a => a.mcp_server_specs.map
          (fun s => (s.server_name, s.endpoint)))) =
        some [("s0", some "http://localhost:9000")] ∧
      ((lookupA wrapState.allocations "a100").map
        (fun a => a.mcp_server_specs.map
          (fun s => (s.server_name, s.endpoint)))) =
        some [("s100", some "http://localhost:9000")]) :=
  ⟨wrapState_reachable, by decide⟩

/-- C9 as amended: within one allocation the synthesized worker ids are
pairwise distinct, and workers owned by allocations with distinct job ids
never share a worker id; allocations sharing a job id can collide (see the
counterexample). -/
theorem spec_C9_amended (m : AllocationManager) (h : Reachable m) :
    (∀ p ∈ m.allocations,
      (p.2.workers_allocated.map (fun w => w.worker_id)).Nodup) ∧
    (∀ p ∈ m.allocations, ∀ q ∈ m.allocations, p.2.job_id ≠ q.2.job_id →
      ∀ w1 ∈ p.2.workers_allocated, ∀ w2 ∈ q.2.workers_allocated,
        w1.worker_id ≠ w2.worker_id) := by
  have hInv := reachable_inv h
  constructor
  · intro p hp
    rw [(hInv.entries p hp).wid_shape]
    exact (List.nodup_range _).map (workerIdStr_inj_idx _)
  · intro p hp q hq hjob w1 hw1 w2 hw2
    have h1 := (hInv.entries p hp).wid_shape
    have h2 := (hInv.entries q hq).wid_shape
    have hm1 : w1.worker_id ∈ p.2.workers_allocated.map (fun w => w.worker_id) :=
      List.mem_map_of_mem _ hw1
    have hm2 : w2.worker_id ∈ q.2.workers_allocated.map (fun w => w.worker_id) :=
      List.mem_map_of_mem _ hw2
    rw [h1] at hm1
    rw [h2] at hm2
    obtain ⟨i1, _, hid1⟩ := List.mem_map.1 hm1
    obtain ⟨i2, _, hid2⟩ := List.mem_map.1 hm2
    rw [← hid1, ← hid2]
    exact workerIdStr_ne_of_job_ne hjob i1 i2

/-- Two one-worker requests under distinct job ids. -/
def wT : AllocationManager :=
  (request_resources
    (request_resources wM0 "alloc-t1" "jobA" [] (some 1) "normal" 3600 [] 0).1
    "alloc-t2" "jobB" [] (some 1) "normal" 3600 [] 0).1

theorem wT_reachable : Reachable wT :=
  Reachable.request "alloc-t2" "jobB" [] (some 1) "normal" 3600 [] 0
    (Reachable.request "alloc-t1" "jobA" [] (some 1) "normal" 3600 [] 0
      wM0_reachable rfl)
    (by decide)

/-- Witness for the amended C9 at `wT`. -/
theorem spec_C9_witness :
    Reachable wT ∧
    ((lookupA wT.allocations "alloc-t1").map
      (fun a => a.workers_allocated.map (fun w => w.worker_id))) =
      some ["worker-jobA-000"] ∧
    ((lookupA wT.allocations "alloc-t2").map
      (fun a => a.workers_allocated.map (fun w => w.worker_id))) =
      some ["worker-jobB-000"] ∧
    ((∀ p ∈ wT.allocations,
      (p.2.workers_allocated.map (fun w => w.worker_id)).Nodup) ∧
    (∀ p ∈ wT.allocations, ∀ q ∈ wT.allocations, p.2.job_id ≠ q.2.job_id →
      ∀ w1 ∈ p.2.workers_allocated, ∀ w2 ∈ q.2.workers_allocated,
        w1.worker_id ≠ w2.worker_id)) :=
  ⟨wT_reachable, by decide, by decide, spec_C9_amended wT wT_reachable⟩

/-- Two one-worker requests under the same job id. -/
def wU : AllocationManager :=
  (request_resources
    (request_resources wM0 "alloc-u1" "j" [] (some 1) "normal" 3600 [] 0).1
    "alloc-u2" "j" [] (some 1) "normal" 3600 [] 0).1

theorem wU_reachable : Reachable wU :=
  Reachable.request "alloc-u2" "j" [] (some 1) "normal" 3600 [] 0
    (Reachable.request "alloc-u1" "j" [] (some 1) "normal" 3600 [] 0
      wM0_reachable rfl)
    (by decide)

/-- Counterexample to C9: two different allocations requested under the same
job id `j` both own a worker with the identical id `worker-j-000`. -/
theorem spec_C9_counterexample :
    Reachable wU ∧
    (("alloc-u1" : String) ≠ "alloc-u2" ∧
      ((lookupA wU.allocations "alloc-u1").map
        (fun a => a.workers_allocated.map (fun w => w.worker_id))) =
        some ["worker-j-000"] ∧
      ((lookupA wU.allocations "alloc-u2").map
        (fun a => a.workers_allocated.map (fun w => w.worker_id))) =
        some ["worker-j-000"]) :=
  ⟨wU_reachable, by decide⟩

end CortexRM
